import Mathlib

/-!
# Backend configuration store, chain parser and change detector

A shallow embedding of `backends/config.go`.

Modelling conventions.

* A Go `string` is a Lean `String` (a sequence of runes).
* A Go `map[string]V` is a `GoMap V`: the list of its entries, at most one per key
  for a well-formed map (`GoMap.WF`).  Ranging over the map visits the entries in
  list order, which is one of the orders Go may choose.  Indexing, assignment and
  `delete` are `GoMap.index`, `GoMap.assign` and `GoMap.delete`.
* A nil map of the two outer levels of `BackendConfig` reads like the empty map and
  `SetValue` replaces it by a fresh map before writing, so both are the empty list.
  A `ConfigGroup` is compared with `reflect.DeepEqual`, which tells a nil map from an
  empty one, so a `ConfigGroup` is an `Option`: `none` is the nil map.
* Methods that mutate their receiver or an argument return the state after the call;
  two maps handed to one call are distinct objects.
* `strings.ToLower` lowers every rune with `unicode.ToLower`, whose table of the runes
  beyond ASCII (`unicode.CaseRanges`) is a parameter (`CaseTable`); the general
  theorems hold for every table.  `strings.TrimSpace` uses the white space of
  `unicode.IsSpace`, `strings.Split` is modelled for the one-rune separator `|`.
* `Svc.ExtractConfig`, which `Changes` calls and which lives outside this source file,
  is a parameter of `Changes` (`Extractor`).
-/

namespace Backends

/-! ## Go maps -/

/-- The entries of a Go `map[string]V`. -/
abbrev GoMap (V : Type) := List (String × V)

namespace GoMap

variable {V : Type}

/-- The comma-ok index expression `v, ok := m[k]`: `none` when `ok` is false. -/
def index : GoMap V → String → Option V
  | [], _ => none
  | (k', v) :: rest, k => if k' = k then some v else index rest k

/-- The assignment `m[k] = v`: the entry of `k` is replaced where it stands, or a new
entry is made. -/
def assign : GoMap V → String → V → GoMap V
  | [], k, v => [(k, v)]
  | (k', v') :: rest, k, v =>
    if k' = k then (k, v) :: rest else (k', v') :: assign rest k v

/-- The builtin `delete(m, k)`. -/
def delete : GoMap V → String → GoMap V
  | [], _ => []
  | (k', v) :: rest, k => if k' = k then delete rest k else (k', v) :: delete rest k

/-- The keys of the map, in the order a `range` loop visits them. -/
def keys (m : GoMap V) : List String := m.map Prod.fst

/-- The test `_, ok := m[k]; ok`. -/
def has (m : GoMap V) (k : String) : Bool := (index m k).isSome

/-- A Go map holds at most one entry per key. -/
def WF (m : GoMap V) : Prop := (keys m).Nodup

instance (m : GoMap V) : Decidable (WF m) := by
  unfold WF; infer_instance

end GoMap

/-! ## Strings -/

/-- The rune test `unicode.IsSpace`. -/
def isSpace (c : Char) : Bool :=
  let n := c.toNat
  n = 0x09 || n = 0x0A || n = 0x0B || n = 0x0C || n = 0x0D || n = 0x20 ||
  n = 0x85 || n = 0xA0 || n = 0x1680 || (0x2000 ≤ n && n ≤ 0x200A) ||
  n = 0x2028 || n = 0x2029 || n = 0x202F || n = 0x205F || n = 0x3000

/-- The lower-case column of the table `unicode.CaseRanges`, which is not part of this
source: the rune `unicode.To(unicode.LowerCase, r)` for a rune `r` beyond ASCII.  It is
a parameter of every definition that lowers a string. -/
abbrev CaseTable := Char → Char

/-- Model of `unicode.ToLower`: up to `unicode.MaxASCII` the letters `A` to `Z` move to
`a` to `z` and every other rune stays; beyond, the rune is looked up in the table. -/
def unicodeToLower (tbl : CaseTable) (r : Char) : Char :=
  if r.toNat ≤ 0x7F then
    if 65 ≤ r.toNat ∧ r.toNat ≤ 90 then Char.ofNat (r.toNat + 32) else r
  else tbl r

/-- Model of `strings.ToLower`: `unicode.ToLower` on every rune of the string. -/
def ToLower (tbl : CaseTable) (s : String) : String := ⟨s.data.map (unicodeToLower tbl)⟩

/-- The rows of the case table for the Latin-1 Supplement: the letters U+00C0 to U+00DE
other than the sign U+00D7 are lowered by 32.  The examples of this file are evaluated
with it; they hold no upper-case rune beyond Latin-1. -/
def latin1CaseTable : CaseTable := fun r =>
  if 0xC0 ≤ r.toNat ∧ r.toNat ≤ 0xDE ∧ r.toNat ≠ 0xD7 then Char.ofNat (r.toNat + 32) else r

/-- Model of `strings.TrimSpace`: leading and trailing white space is removed. -/
def TrimSpace (s : String) : String :=
  ⟨((s.data.dropWhile isSpace).reverse.dropWhile isSpace).reverse⟩

/-- The runes of `s` cut at every occurrence of `sep`. -/
def splitRunes (sep : Char) : List Char → List (List Char)
  | [] => [[]]
  | c :: cs =>
    if c = sep then [] :: splitRunes sep cs
    else
      match splitRunes sep cs with
      | [] => [[c]]
      | t :: ts => (c :: t) :: ts

/-- Model of `strings.Split(s, sep)` for a separator of one rune: a string with `n`
separators gives `n + 1` tokens, the empty string gives one empty token. -/
def Split (s : String) (sep : Char) : List String :=
  (splitRunes sep s.data).map String.mk

/-! ## The configuration store -/

/-- The values a `ConfigGroup` holds (`interface{}` in the source): the JSON scalars. -/
inductive Value where
  | null
  | bool (b : Bool)
  | int (i : Int)
  | str (s : String)
  deriving DecidableEq, Repr

/-- Model of `type ConfigGroup map[string]interface{}`; `none` is the nil map. -/
abbrev ConfigGroup := Option (GoMap Value)

instance : DecidableEq ConfigGroup := inferInstance

instance : DecidableEq (GoMap ConfigGroup) := inferInstance

/-- Model of `type BackendConfig map[string]map[string]ConfigGroup`. -/
abbrev BackendConfig := GoMap (GoMap ConfigGroup)

instance : DecidableEq BackendConfig := inferInstance

/-- Model of `type configNameSpace int`. -/
abbrev configNameSpace := Int

/-- The constant `ConfigProcessors` (iota 0). -/
def ConfigProcessors : configNameSpace := 0
/-- The constant `ConfigStreamProcessors` (iota 1). -/
def ConfigStreamProcessors : configNameSpace := 1
/-- The constant `ConfigGateways` (iota 2). -/
def ConfigGateways : configNameSpace := 2

/-- Model of `func (o configNameSpace) String() string`. -/
def configNameSpace.String (o : configNameSpace) : String :=
  if o = ConfigProcessors then "processors"
  else if o = ConfigStreamProcessors then "stream_processors"
  else if o = ConfigGateways then "gateways"
  else "unknown"

/-- Model of `func (c *BackendConfig) SetValue(ns, name, key, value)`; the result is the
store after the call. -/
def SetValue (c : BackendConfig) (ns : configNameSpace) (name key : String)
    (value : Value) : BackendConfig :=
  let nsKey := configNameSpace.String ns
  -- if *c == nil { *c = make(BackendConfig, 0) }: the nil store is the empty list
  -- if (*c)[nsKey] == nil { (*c)[nsKey] = make(map[string]ConfigGroup) }
  let c1 := if (GoMap.index c nsKey).isNone then GoMap.assign c nsKey [] else c
  let m := (GoMap.index c1 nsKey).getD []
  -- if (*c)[nsKey][name] == nil { (*c)[nsKey][name] = make(ConfigGroup) }
  let m1 := if ((GoMap.index m name).getD none).isNone then GoMap.assign m name (some []) else m
  let g := ((GoMap.index m1 name).getD none).getD []
  -- (*c)[nsKey][name][key] = value
  GoMap.assign c1 nsKey (GoMap.assign m1 name (some (GoMap.assign g key value)))

/-- Model of `func (c *BackendConfig) GetValue(ns, name, key) interface{}`: `none` is the
nil result, `some v` the pointer to the stored value. -/
def GetValue (c : BackendConfig) (ns : configNameSpace) (name key : String) :
    Option Value :=
  let nsKey := configNameSpace.String ns
  match GoMap.index c nsKey with
  | none => none
  | some m =>
    match GoMap.index m name with
    | none => none
    | some none => none
    | some (some g) => GoMap.index g key

/-- Model of `reflect.DeepEqual` on two values of a `ConfigGroup`: the same dynamic type
and the same value. -/
def DeepEqualValue (x y : Value) : Bool := decide (x = y)

/-- Model of `reflect.DeepEqual` on two `ConfigGroup`s: both nil or both not, the same
number of entries, and every key of the first is a key of the second with a deeply
equal value. -/
def DeepEqual : ConfigGroup → ConfigGroup → Bool
  | none, none => true
  | some a, some b =>
    decide (a.length = b.length) &&
    (GoMap.keys a).all (fun k =>
      match GoMap.index a k, GoMap.index b k with
      | some x, some y => DeepEqualValue x y
      | _, _ => false)
  | _, _ => false

/-- The outcome of the hostname lookup `os.Hostname()`: the name, or the error. -/
abbrev HostnameResult := Except String String

/-- Model of `func (c *BackendConfig) ConfigureDefaults() error`, given the outcome of
`os.Hostname()`.  The result is the store after the call and the returned error
(`none` for nil). -/
def ConfigureDefaults (hostname : HostnameResult) (c : BackendConfig) :
    BackendConfig × Option String :=
  let c1 :=
    if (GetValue c ConfigGateways "default" "save_workers_size").isNone then
      SetValue c ConfigGateways "default" "save_workers_size" (Value.int 1)
    else c
  let c2 :=
    if (GetValue c1 ConfigGateways "default" "save_process").isNone then
      SetValue c1 ConfigGateways "default" "save_process" (Value.str "HeadersParser|Header|Debugger")
    else c1
  let tail (c3 : BackendConfig) : BackendConfig × Option String :=
    if (GetValue c3 ConfigProcessors "default" "log_received_mails").isNone then
      (SetValue c3 ConfigProcessors "Debugger" "log_received_mails" (Value.bool true), none)
    else (c3, none)
  if (GetValue c2 ConfigProcessors "default" "primary_mail_host").isNone then
    match hostname with
    | Except.error err => (c2, some err)
    | Except.ok h => tail (SetValue c2 ConfigProcessors "Header" "primary_mail_host" (Value.str h))
  else tail c2

/-! ## The chain parser -/

/-- Model of `type stackConfigExpression struct`. -/
structure stackConfigExpression where
  alias_ : String
  name : String
  deriving DecidableEq, Repr

/-- Model of `type stackConfig struct`; `notFound` is the error factory (the message of
the error it makes), `none` while it is nil. -/
structure stackConfig where
  list : List stackConfigExpression
  notFound : Option (String → String)

/-- Model of `func NewStackConfig(config string) (ret *stackConfig)`.  The loop writes
`ret.list[i]` for `i = 0, ..., len(items) - 1` into the slice made by
`make([]stackConfigExpression, len(items))`. -/
def NewStackConfig (tbl : CaseTable) (config : String) : stackConfig :=
  let cfg := ToLower tbl (TrimSpace config)
  if cfg = "" then { list := [], notFound := none }
  else
    let items := Split cfg '|'
    let list := (List.range items.length).foldl
      (fun (l : List stackConfigExpression) i =>
        let pos := items.length - 1 - i
        l.set i { alias_ := "", name := items.getD pos "" })
      (List.replicate items.length { alias_ := "", name := "" })
    { list := list, notFound := none }

/-- Model of `func newStackProcessorConfig(config string) (ret *stackConfig)`. -/
def newStackProcessorConfig (tbl : CaseTable) (config : String) : stackConfig :=
  { NewStackConfig tbl config with
    notFound := some (fun s => "processor [" ++ s ++ "] not found") }

/-- Model of `func newStackStreamProcessorConfig(config string) (ret *stackConfig)`. -/
def newStackStreamProcessorConfig (tbl : CaseTable) (config : String) : stackConfig :=
  { NewStackConfig tbl config with
    notFound := some (fun s => "stream processor [" ++ s ++ "] not found") }

/-! ## The change detector -/

/-- The state of the first loop of `compareConfigGroup`: the slices `diff` and `added`
and the map `old`, from which the loop deletes. -/
structure CompareState where
  diff : List String
  added : List String
  old : GoMap ConfigGroup

/-- One iteration of `for p := range new` in `compareConfigGroup`. -/
def compareStep (new : GoMap ConfigGroup) (st : CompareState) (p : String) : CompareState :=
  match GoMap.index st.old p with
  | some o =>
    let old1 := GoMap.delete st.old p
    if !DeepEqual ((GoMap.index new p).getD none) o then
      { diff := st.diff ++ [p], added := st.added, old := old1 }
    else { diff := st.diff, added := st.added, old := old1 }
  | none => { diff := st.diff, added := st.added ++ [p], old := st.old }

/-- The results of `compareConfigGroup`, and the map `old` as the call leaves it: Go
passes the map by reference, so this is what the caller's map holds afterwards. -/
structure GroupDiff where
  diff : List String
  added : List String
  removed : List String
  old : GoMap ConfigGroup

/-- Model of `func compareConfigGroup(old, new map[string]ConfigGroup)
(diff, added, removed []string)`. -/
def compareConfigGroup (old new : GoMap ConfigGroup) : GroupDiff :=
  let st := (GoMap.keys new).foldl (compareStep new) { diff := [], added := [], old := old }
  let removed := (GoMap.keys st.old).foldl (fun (r : List String) p => r ++ [p]) []
  { diff := st.diff, added := st.added, removed := removed, old := st.old }

/-- Model of `func changedConfigGroups(old, new map[string]ConfigGroup) map[string]bool`;
the second component is the map `old` as the call leaves it. -/
def changedConfigGroups (tbl : CaseTable) (old new : GoMap ConfigGroup) : GoMap Bool × GoMap ConfigGroup :=
  let r := compareConfigGroup old new
  let all : List String := []
  let all := all ++ r.diff
  let all := all ++ r.removed
  let all := all ++ r.added
  let changed := all.foldl (fun (changed : GoMap Bool) p => GoMap.assign changed (ToLower tbl p) true) []
  (changed, r.old)

/-- Model of `type GatewayConfig struct`, the two fields `Changes` reads. -/
structure GatewayConfig where
  SaveProcess : String
  StreamSaveProcess : String
  deriving DecidableEq, Repr

/-- The type of the collaborator `Svc.ExtractConfig(ns, group, cfg, configType)`, which
is not part of this source file: the `GatewayConfig` it hands back (`Changes` drops
its error). -/
abbrev Extractor := configNameSpace → String → BackendConfig → GatewayConfig

/-- The index expression `c[k]` on the outer map of a store: the nil map, which reads
like the empty one, when `k` is missing. -/
def groupsOf (c : BackendConfig) (k : String) : GoMap ConfigGroup :=
  (GoMap.index c k).getD []

/-- What a call on a map argument leaves in the caller's store: the map under `k` is
the same object as the argument, so it holds what the call left, and a missing `k`
(a nil argument) stays missing. -/
def leaveIn (c : BackendConfig) (k : String) (m : GoMap ConfigGroup) : BackendConfig :=
  if GoMap.has c k then GoMap.assign c k m else c

/-- The state of the gateway loop of `Changes`. -/
structure GatewayState where
  changed : GoMap Bool
  added : GoMap Bool
  oldList : GoMap Bool

/-- The loop `for _, v := range config.list` of `Changes`: `changed[key] = true` when a
link is in the changed-names set. -/
def markLinks (names : GoMap Bool) (key : String) (list : List stackConfigExpression)
    (changed : GoMap Bool) : GoMap Bool :=
  list.foldl (fun (changed : GoMap Bool) v =>
    if GoMap.has names v.name then GoMap.assign changed key true else changed) changed

/-- One iteration of `for key, _ := range c[cg]` in `Changes`. -/
def gatewayStep (tbl : CaseTable) (ExtractConfig : Extractor) (c oldConfig : BackendConfig)
    (changedProcessors changedStreamProcessors : GoMap Bool)
    (st : GatewayState) (key : String) : GatewayState :=
  let cg := configNameSpace.String ConfigGateways
  let bcfg := ExtractConfig ConfigGateways key c
  let config := NewStackConfig tbl bcfg.SaveProcess
  let changed := markLinks changedProcessors key config.list st.changed
  let config := NewStackConfig tbl bcfg.StreamSaveProcess
  let changed := markLinks changedStreamProcessors key config.list changed
  match GoMap.index (groupsOf oldConfig cg) key with
  | some o =>
    let oldList := GoMap.delete st.oldList key
    if !DeepEqual ((GoMap.index (groupsOf c cg) key).getD none) o then
      { changed := GoMap.assign changed key true, added := st.added, oldList := oldList }
    else { changed := changed, added := st.added, oldList := oldList }
  | none =>
    { changed := changed, added := GoMap.assign st.added key true, oldList := st.oldList }

/-- The results of `Changes`, and the caller's `oldConfig` as the call leaves it. -/
structure ChangeSets where
  changed : GoMap Bool
  added : GoMap Bool
  removed : GoMap Bool
  oldConfig : BackendConfig

/-- Model of `func (c BackendConfig) Changes(oldConfig BackendConfig)
(changed, added, removed map[string]bool)`.  The two snapshots share no map. -/
def Changes (tbl : CaseTable) (ExtractConfig : Extractor) (c oldConfig : BackendConfig) : ChangeSets :=
  let cp := configNameSpace.String ConfigProcessors
  let csp := configNameSpace.String ConfigStreamProcessors
  let cg := configNameSpace.String ConfigGateways
  let rp := changedConfigGroups tbl (groupsOf oldConfig cp) (groupsOf c cp)
  let changedProcessors := rp.1
  let oldConfig := leaveIn oldConfig cp rp.2
  let rs := changedConfigGroups tbl (groupsOf oldConfig csp) (groupsOf c csp)
  let changedStreamProcessors := rs.1
  let oldConfig := leaveIn oldConfig csp rs.2
  let oldList := (GoMap.keys (groupsOf oldConfig cg)).foldl
    (fun (oldList : GoMap Bool) g => GoMap.assign oldList g true) []
  let st := (GoMap.keys (groupsOf c cg)).foldl
    (gatewayStep tbl ExtractConfig c oldConfig changedProcessors changedStreamProcessors)
    { changed := [], added := [], oldList := oldList }
  let removed := (GoMap.keys st.oldList).foldl
    (fun (removed : GoMap Bool) p => GoMap.assign removed p true) []
  { changed := st.changed, added := st.added, removed := removed, oldConfig := oldConfig }

/-- The processors changed-names set that `Changes` computes. -/
def processorsChanged (tbl : CaseTable) (c oldConfig : BackendConfig) : GoMap Bool :=
  (changedConfigGroups tbl (groupsOf oldConfig (configNameSpace.String ConfigProcessors))
    (groupsOf c (configNameSpace.String ConfigProcessors))).1

/-- The stream-processors changed-names set that `Changes` computes. -/
def streamProcessorsChanged (tbl : CaseTable) (c oldConfig : BackendConfig) : GoMap Bool :=
  (changedConfigGroups tbl (groupsOf oldConfig (configNameSpace.String ConfigStreamProcessors))
    (groupsOf c (configNameSpace.String ConfigStreamProcessors))).1

/-- Some link of the parsed chain is in the changed-names set `names`. -/
def chainHit (tbl : CaseTable) (names : GoMap Bool) (chain : String) : Bool :=
  (NewStackConfig tbl chain).list.any (fun v => GoMap.has names v.name)

/-- The three tests of one iteration of the gateway loop of `Changes` that set
`changed[key] = true`. -/
def gatewayChanged (tbl : CaseTable) (E : Extractor) (c oldConfig : BackendConfig)
    (changedProcessors changedStreamProcessors : GoMap Bool) (key : String) : Bool :=
  chainHit tbl changedProcessors (E ConfigGateways key c).SaveProcess ||
  chainHit tbl changedStreamProcessors (E ConfigGateways key c).StreamSaveProcess ||
  (match GoMap.index (groupsOf oldConfig (configNameSpace.String ConfigGateways)) key with
   | some o =>
     !DeepEqual ((GoMap.index (groupsOf c (configNameSpace.String ConfigGateways)) key).getD none) o
   | none => false)

/-- The string stored under `key` of a group, the empty string when there is none. -/
def stringField (g : ConfigGroup) (key : String) : String :=
  match g with
  | some m =>
    match GoMap.index m key with
    | some (Value.str s) => s
    | _ => ""
  | none => ""

/-- Modelled from the spec: the extraction collaborator `Svc.ExtractConfig` is not part
of this source file.  It "produces a structured view (e.g., GatewayConfig) populated
from the matching ConfigGroup"; here `SaveProcess` is read from the group's
`save_process` (the key `ConfigureDefaults` writes the default chain to) and
`StreamSaveProcess` from `stream_save_process`. -/
def extractFromGroup : Extractor := fun ns name cfg =>
  let g := (GoMap.index (groupsOf cfg (configNameSpace.String ns)) name).getD none
  { SaveProcess := stringField g "save_process",
    StreamSaveProcess := stringField g "stream_save_process" }

/-- The old snapshot of the end-to-end scenario: gateway `default` with the chain
`HeadersParser|Header`, processor `Header` with `primary_mail_host = "a"`. -/
def scenarioOld : BackendConfig :=
  [("gateways", [("default", some [("save_process", Value.str "HeadersParser|Header")])]),
   ("processors", [("Header", some [("primary_mail_host", Value.str "a")])])]

/-- The new snapshot of the end-to-end scenario: `Header` has `primary_mail_host = "b"`. -/
def scenarioNew : BackendConfig :=
  [("gateways", [("default", some [("save_process", Value.str "HeadersParser|Header")])]),
   ("processors", [("Header", some [("primary_mail_host", Value.str "b")])])]

/-- An old snapshot with no gateway and the processor `Header`. -/
def addedGatewayOld : BackendConfig :=
  [("processors", [("Header", some [("primary_mail_host", Value.str "a")])])]

/-- A new snapshot with the gateway `default`, whose chain names `Header`, and a
changed processor `Header`. -/
def addedGatewayNew : BackendConfig :=
  [("gateways", [("default", some [("save_process", Value.str "Header")])]),
   ("processors", [("Header", some [("primary_mail_host", Value.str "b")])])]

/-- The snapshot `scenarioOld` with one more gateway `fresh`, whose chain is
`Debugger`, and one more processor `Hasher`. -/
def freshGatewayNew : BackendConfig :=
  [("gateways", [("default", some [("save_process", Value.str "HeadersParser|Header")]),
     ("fresh", some [("save_process", Value.str "Debugger")])]),
   ("processors", [("Header", some [("primary_mail_host", Value.str "a")]),
     ("Hasher", some [])])]

/-- The pipe-separated tokens of a chain string, after trimming the whole string and
lowercasing, in the words of the spec: a blank chain is the empty chain and has no
token, any other chain is split on `|` into its raw tokens. -/
def chainTokens (tbl : CaseTable) (chain : String) : List String :=
  if ToLower tbl (TrimSpace chain) = "" then []
  else Split (ToLower tbl (TrimSpace chain)) '|'

/-- An old snapshot whose gateway `g` has the chain `Édit` and whose processor is
stored as `édit`. -/
def accentOld : BackendConfig :=
  [("gateways", [("g", some [("save_process", Value.str "Édit")])]),
   ("processors", [("édit", some [("k", Value.int 1)])])]

/-- The snapshot `accentOld` with the setting of the processor `édit` changed. -/
def accentNew : BackendConfig :=
  [("gateways", [("g", some [("save_process", Value.str "Édit")])]),
   ("processors", [("édit", some [("k", Value.int 2)])])]

/-! ## Auxiliary definitions for the statements and proofs -/

/-- The first two rules of `ConfigureDefaults`: the defaults of the gateway `default`. -/
def gatewayDefaults (c : BackendConfig) : BackendConfig :=
  let c1 :=
    if (GetValue c ConfigGateways "default" "save_workers_size").isNone then
      SetValue c ConfigGateways "default" "save_workers_size" (Value.int 1)
    else c
  if (GetValue c1 ConfigGateways "default" "save_process").isNone then
    SetValue c1 ConfigGateways "default" "save_process" (Value.str "HeadersParser|Header|Debugger")
  else c1

/-- The last rule of `ConfigureDefaults`: the default of the processor `Debugger`. -/
def debuggerDefault (c : BackendConfig) : BackendConfig × Option String :=
  if (GetValue c ConfigProcessors "default" "log_received_mails").isNone then
    (SetValue c ConfigProcessors "Debugger" "log_received_mails" (Value.bool true), none)
  else (c, none)

/-- The last two rules of `ConfigureDefaults`: the defaults of the processors. -/
def processorDefaults (hostname : HostnameResult) (c : BackendConfig) :
    BackendConfig × Option String :=
  if (GetValue c ConfigProcessors "default" "primary_mail_host").isNone then
    match hostname with
    | Except.error err => (c, some err)
    | Except.ok h =>
      debuggerDefault (SetValue c ConfigProcessors "Header" "primary_mail_host" (Value.str h))
  else debuggerDefault c

/-- The test of the first loop of `compareConfigGroup` that puts `p` into `diff`. -/
def isDiff (old new : GoMap ConfigGroup) (p : String) : Bool :=
  match GoMap.index old p with
  | some o => !DeepEqual ((GoMap.index new p).getD none) o
  | none => false

/-- The old mapping of the group diff example: `kept` stays, `edited` changes,
`dropped` goes. -/
def diffExampleOld : GoMap ConfigGroup :=
  [("kept", some [("k", Value.int 1)]), ("edited", some [("k", Value.int 1)]),
   ("dropped", none)]

/-- The new mapping of the group diff example: `fresh` is new. -/
def diffExampleNew : GoMap ConfigGroup :=
  [("edited", some [("k", Value.int 2)]), ("fresh", some []),
   ("kept", some [("k", Value.int 1)])]

/-- A store in which the user configured the mail host of the processor `Header` and
switched the logging of `Debugger` off. -/
def userHostStore : BackendConfig :=
  [("processors", [("Header", some [("primary_mail_host", Value.str "mail.example.com")]),
     ("Debugger", some [("log_received_mails", Value.bool false)])])]

/-- One rule of the table of defaults of the spec: the namespace, the probe component
and key, the component and key the default is written to, and the default value. -/
structure DefaultRule where
  ns : configNameSpace
  probeName : String
  probeKey : String
  defaultName : String
  defaultKey : String
  value : Value

/-- The four rules of the spec, in its order, for the hostname `h`. -/
def defaultRules (h : String) : List DefaultRule :=
  [{ ns := ConfigGateways, probeName := "default", probeKey := "save_workers_size",
     defaultName := "default", defaultKey := "save_workers_size", value := Value.int 1 },
   { ns := ConfigGateways, probeName := "default", probeKey := "save_process",
     defaultName := "default", defaultKey := "save_process",
     value := Value.str "HeadersParser|Header|Debugger" },
   { ns := ConfigProcessors, probeName := "default", probeKey := "primary_mail_host",
     defaultName := "Header", defaultKey := "primary_mail_host", value := Value.str h },
   { ns := ConfigProcessors, probeName := "default", probeKey := "log_received_mails",
     defaultName := "Debugger", defaultKey := "log_received_mails",
     value := Value.bool true }]

/-- The default rules as the spec words them: the input store `c` with the write of
every rule whose probe key is absent from `c` applied, and no other write. -/
def applyDefaultRules (h : String) (c : BackendConfig) : BackendConfig :=
  (defaultRules h).foldl
    (fun (acc : BackendConfig) r =>
      if (GetValue c r.ns r.probeName r.probeKey).isNone then
        SetValue acc r.ns r.defaultName r.defaultKey r.value
      else acc)
    c

/-- A new snapshot whose only gateway is stored under the key `Default`. -/
def mixedCaseNew : BackendConfig :=
  [("gateways", [("Default", some [("save_process", Value.str "Header")])])]

/-- Two mappings from component name to group are structurally equal: they have the
same names, and the groups of every name are deeply equal. -/
def equalGroups (a b : GoMap ConfigGroup) : Bool :=
  (GoMap.keys b).all (fun k => GoMap.has a k) &&
  (GoMap.keys a).all (fun k =>
    match GoMap.index a k, GoMap.index b k with
    | some x, some y => DeepEqual x y
    | _, _ => false)

/-- A copy of `scenarioNew` with the namespaces in another order. -/
def scenarioNewCopy : BackendConfig :=
  [("processors", [("Header", some [("primary_mail_host", Value.str "b")])]),
   ("gateways", [("default", some [("save_process", Value.str "HeadersParser|Header")])])]

variable {tbl : CaseTable}

/-! ## Facts about Go maps -/

namespace GoMap

variable {V : Type}

theorem index_assign_self (m : GoMap V) (k : String) (v : V) :
    index (assign m k v) k = some v := by
  induction m with
  | nil => simp [assign, index]
  | cons e rest ih =>
    obtain ⟨k', v'⟩ := e
    by_cases h : k' = k
    · simp [assign, index, h]
    · simp [assign, index, h, ih]

theorem index_assign_ne (m : GoMap V) {k k' : String} (h : k ≠ k') (v : V) :
    index (assign m k v) k' = index m k' := by
  induction m with
  | nil => simp [assign, index, h]
  | cons e rest ih =>
    obtain ⟨k₀, v₀⟩ := e
    by_cases h0 : k₀ = k
    · subst h0
      simp [assign, index, h]
    · by_cases h1 : k₀ = k'
      · subst h1
        simp [assign, index, h0]
      · simp [assign, index, h0, h1, ih]

theorem assign_of_index {m : GoMap V} {k : String} {v : V} (h : index m k = some v) :
    assign m k v = m := by
  induction m with
  | nil => simp [index] at h
  | cons e rest ih =>
    obtain ⟨k₀, v₀⟩ := e
    by_cases h0 : k₀ = k
    · subst h0
      simp [index] at h
      simp [assign, h]
    · simp [index, h0] at h
      simp [assign, h0, ih h]

theorem assign_assign (m : GoMap V) (k : String) (v w : V) :
    assign (assign m k v) k w = assign m k w := by
  induction m with
  | nil => simp [assign]
  | cons e rest ih =>
    obtain ⟨k₀, v₀⟩ := e
    by_cases h0 : k₀ = k
    · simp [assign, h0]
    · simp [assign, h0, ih]

theorem index_delete_self (m : GoMap V) (k : String) : index (delete m k) k = none := by
  induction m with
  | nil => simp [delete, index]
  | cons e rest ih =>
    obtain ⟨k₀, v₀⟩ := e
    by_cases h0 : k₀ = k
    · simp [delete, h0, ih]
    · simp [delete, index, h0, ih]

theorem index_delete_ne (m : GoMap V) {k k' : String} (h : k ≠ k') :
    index (delete m k) k' = index m k' := by
  induction m with
  | nil => simp [delete, index]
  | cons e rest ih =>
    obtain ⟨k₀, v₀⟩ := e
    by_cases h0 : k₀ = k
    · subst h0
      simp [delete, index, h, ih]
    · by_cases h1 : k₀ = k'
      · subst h1
        simp [delete, index, h0]
      · simp [delete, index, h0, h1, ih]

theorem index_isSome_iff (m : GoMap V) (k : String) :
    (index m k).isSome = true ↔ k ∈ keys m := by
  induction m with
  | nil => simp [index, keys]
  | cons e rest ih =>
    obtain ⟨k₀, v₀⟩ := e
    by_cases h0 : k₀ = k
    · simp [index, keys, h0]
    · have h1 : ¬ k = k₀ := fun h => h0 h.symm
      simpa [index, keys, h0, h1] using ih

theorem has_iff (m : GoMap V) (k : String) : has m k = true ↔ k ∈ keys m :=
  index_isSome_iff m k

theorem index_eq_none_iff (m : GoMap V) (k : String) : index m k = none ↔ k ∉ keys m := by
  rw [← index_isSome_iff]
  cases index m k <;> simp

theorem has_assign (m : GoMap V) (k k' : String) (v : V) :
    has (assign m k v) k' = true ↔ k = k' ∨ has m k' = true := by
  unfold has
  by_cases h : k = k'
  · subst h
    simp [index_assign_self]
  · simp [index_assign_ne m h, h]

theorem has_delete (m : GoMap V) (k k' : String) :
    has (delete m k) k' = true ↔ k ≠ k' ∧ has m k' = true := by
  unfold has
  by_cases h : k = k'
  · subst h
    simp [index_delete_self]
  · simp [index_delete_ne m h, h]

theorem keys_delete (m : GoMap V) (k : String) :
    keys (delete m k) = (keys m).filter (fun k' => decide (k' ≠ k)) := by
  induction m with
  | nil => simp [delete, keys]
  | cons e rest ih =>
    obtain ⟨k₀, v₀⟩ := e
    unfold keys at ih
    by_cases h0 : k₀ = k
    · simp [delete, keys, h0, ih]
    · simp [delete, keys, h0, ih]

theorem WF_delete {m : GoMap V} (h : WF m) (k : String) : WF (delete m k) := by
  unfold WF at *
  rw [keys_delete]
  exact h.filter _

end GoMap

/-! ## The configuration store -/

/-- Claim C8. For every store (the nil and the empty store are `[]`), every namespace,
component name, key and value, `GetValue` after `SetValue` of the same address returns
a present result holding the value; the namespace and the component group exist in
the store afterwards. -/
theorem SetValue_GetValue (c : BackendConfig) (ns : configNameSpace) (name key : String)
    (value : Value) :
    GetValue (SetValue c ns name key value) ns name key = some value ∧
    ∃ m g, GoMap.index (SetValue c ns name key value) (configNameSpace.String ns) = some m ∧
      GoMap.index m name = some (some g) ∧ GoMap.index g key = some value := by
  refine ⟨?_, _, _, GoMap.index_assign_self _ _ _, GoMap.index_assign_self _ _ _,
    GoMap.index_assign_self _ _ _⟩
  simp [GetValue, SetValue, GoMap.index_assign_self]

/-- Claim C9. `GetValue` is a total function; it returns the absent marker exactly when
the namespace is missing, or the component is missing from the namespace (a nil group
has no key), or the key is missing from the component's group, and otherwise it
returns the value stored under the key. -/
theorem GetValue_absent_iff (c : BackendConfig) (ns : configNameSpace) (name key : String) :
    (GetValue c ns name key = none ↔
      (GoMap.index c (configNameSpace.String ns) = none ∨
       (∃ m, GoMap.index c (configNameSpace.String ns) = some m ∧
          (GoMap.index m name).getD none = none) ∨
       (∃ m g, GoMap.index c (configNameSpace.String ns) = some m ∧
          GoMap.index m name = some (some g) ∧ GoMap.index g key = none))) ∧
    (∀ m g v, GoMap.index c (configNameSpace.String ns) = some m →
        GoMap.index m name = some (some g) → GoMap.index g key = some v →
        GetValue c ns name key = some v) := by
  unfold GetValue
  constructor
  · cases h1 : GoMap.index c (configNameSpace.String ns) with
    | none => simp [h1]
    | some m =>
      cases h2 : GoMap.index m name with
      | none => simp [h1, h2]
      | some og =>
        cases og with
        | none => simp [h1, h2]
        | some g => simp [h1, h2]
  · intro m g v h1 h2 h3
    simp [h1, h2, h3]

/-- Reading an address other than the one `SetValue` wrote gives what it gave before. -/
theorem GetValue_SetValue_ne (c : BackendConfig) (ns ns' : configNameSpace)
    (name key name' key' : String) (value : Value)
    (h : (configNameSpace.String ns, name, key) ≠ (configNameSpace.String ns', name', key')) :
    GetValue (SetValue c ns name key value) ns' name' key' = GetValue c ns' name' key' := by
  unfold GetValue SetValue
  by_cases hns : configNameSpace.String ns = configNameSpace.String ns'
  · rw [← hns]
    simp only [GoMap.index_assign_self]
    by_cases hname : name = name'
    · subst hname
      have hkey : key ≠ key' := fun hk => h (by rw [hns, hk])
      simp only [GoMap.index_assign_self, GoMap.index_assign_ne _ hkey]
      cases h1 : GoMap.index c (configNameSpace.String ns) with
      | none => simp [h1, GoMap.index_assign_self, GoMap.index]
      | some m =>
        cases h2 : GoMap.index m name with
        | none => simp [h1, h2, GoMap.index_assign_self, GoMap.index]
        | some og =>
          cases og with
          | none => simp [h1, h2, GoMap.index_assign_self, GoMap.index]
          | some g => simp [h1, h2]
    · simp only [GoMap.index_assign_ne _ hname]
      cases h1 : GoMap.index c (configNameSpace.String ns) with
      | none => simp [h1, GoMap.index_assign_self, GoMap.index, GoMap.index_assign_ne _ hname]
      | some m =>
        cases h2 : ((GoMap.index m name).getD none).isNone <;>
          simp [h1, h2, GoMap.index_assign_ne _ hname]
  · simp only [GoMap.index_assign_ne _ hns]
    cases h1 : (GoMap.index c (configNameSpace.String ns)).isNone <;>
      simp [h1, GoMap.index_assign_ne _ hns]

/-- Writing the value an address already holds leaves the store as it is. -/
theorem SetValue_of_GetValue {c : BackendConfig} {ns : configNameSpace} {name key : String}
    {value : Value} (h : GetValue c ns name key = some value) :
    SetValue c ns name key value = c := by
  unfold GetValue at h
  unfold SetValue
  cases h1 : GoMap.index c (configNameSpace.String ns) with
  | none => simp [h1] at h
  | some m =>
    cases h2 : GoMap.index m name with
    | none => simp [h1, h2] at h
    | some og =>
      cases og with
      | none => simp [h1, h2] at h
      | some g =>
        simp only [h1, h2] at h
        simp [h1, h2, GoMap.assign_of_index h, GoMap.assign_of_index h2,
          GoMap.assign_of_index h1]

theorem ConfigureDefaults_eq (hostname : HostnameResult) (c : BackendConfig) :
    ConfigureDefaults hostname c = processorDefaults hostname (gatewayDefaults c) := by
  cases hostname <;> rfl

theorem gatewayDefaults_present (c : BackendConfig) :
    (GetValue (gatewayDefaults c) ConfigGateways "default" "save_workers_size").isNone = false ∧
    (GetValue (gatewayDefaults c) ConfigGateways "default" "save_process").isNone = false := by
  have hne : (configNameSpace.String ConfigGateways, "default", "save_process") ≠
      (configNameSpace.String ConfigGateways, "default", "save_workers_size") := by decide
  unfold gatewayDefaults
  cases h1 : (GetValue c ConfigGateways "default" "save_workers_size").isNone
  · simp only [Bool.false_eq_true, if_false]
    cases h2 : (GetValue c ConfigGateways "default" "save_process").isNone
    · simp only [Bool.false_eq_true, if_false]
      exact ⟨h1, h2⟩
    · simp only [if_true]
      refine ⟨?_, ?_⟩
      · rw [GetValue_SetValue_ne _ _ _ _ _ _ _ _ hne]
        exact h1
      · rw [(SetValue_GetValue _ _ _ _ _).1]
        rfl
  · simp only [if_true]
    cases h2 : (GetValue (SetValue c ConfigGateways "default" "save_workers_size" (Value.int 1))
        ConfigGateways "default" "save_process").isNone
    · simp only [Bool.false_eq_true, if_false]
      refine ⟨?_, h2⟩
      rw [(SetValue_GetValue _ _ _ _ _).1]
      rfl
    · simp only [if_true]
      refine ⟨?_, ?_⟩
      · rw [GetValue_SetValue_ne _ _ _ _ _ _ _ _ hne, (SetValue_GetValue _ _ _ _ _).1]
        rfl
      · rw [(SetValue_GetValue _ _ _ _ _).1]
        rfl

theorem gatewayDefaults_of_present {c : BackendConfig}
    (h1 : (GetValue c ConfigGateways "default" "save_workers_size").isNone = false)
    (h2 : (GetValue c ConfigGateways "default" "save_process").isNone = false) :
    gatewayDefaults c = c := by
  simp [gatewayDefaults, h1, h2]

theorem debuggerDefault_frame (c : BackendConfig) (ns : configNameSpace) (name key : String)
    (h : (configNameSpace.String ConfigProcessors, "Debugger", "log_received_mails") ≠
      (configNameSpace.String ns, name, key)) :
    GetValue (debuggerDefault c).1 ns name key = GetValue c ns name key := by
  unfold debuggerDefault
  split_ifs
  · exact GetValue_SetValue_ne _ _ _ _ _ _ _ _ h
  · rfl

theorem processorDefaults_frame (hostname : HostnameResult) (c : BackendConfig)
    (ns : configNameSpace) (name key : String)
    (h1 : (configNameSpace.String ConfigProcessors, "Header", "primary_mail_host") ≠
      (configNameSpace.String ns, name, key))
    (h2 : (configNameSpace.String ConfigProcessors, "Debugger", "log_received_mails") ≠
      (configNameSpace.String ns, name, key)) :
    GetValue (processorDefaults hostname c).1 ns name key = GetValue c ns name key := by
  unfold processorDefaults
  split_ifs
  · cases hostname with
    | error err => rfl
    | ok h =>
      simp only []
      rw [debuggerDefault_frame _ _ _ _ h2, GetValue_SetValue_ne _ _ _ _ _ _ _ _ h1]
  · exact debuggerDefault_frame _ _ _ _ h2

theorem debuggerDefault_idem (c : BackendConfig) :
    debuggerDefault (debuggerDefault c).1 = debuggerDefault c := by
  cases h : (GetValue c ConfigProcessors "default" "log_received_mails").isNone
  · have e : debuggerDefault c = (c, none) := by simp [debuggerDefault, h]
    rw [e]
    exact e
  · have e : debuggerDefault c =
        (SetValue c ConfigProcessors "Debugger" "log_received_mails" (Value.bool true), none) := by
      simp [debuggerDefault, h]
    have h' : (GetValue (SetValue c ConfigProcessors "Debugger" "log_received_mails"
        (Value.bool true)) ConfigProcessors "default" "log_received_mails").isNone = true := by
      rw [GetValue_SetValue_ne _ _ _ _ _ _ _ _ (by decide)]
      exact h
    rw [e]
    simp only [debuggerDefault, h', if_true]
    rw [SetValue_of_GetValue (SetValue_GetValue _ _ _ _ _).1]

theorem processorDefaults_idem (hostname : HostnameResult) (c : BackendConfig) :
    processorDefaults hostname (processorDefaults hostname c).1 =
      processorDefaults hostname c := by
  have hfr := processorDefaults_frame hostname c ConfigProcessors "default" "primary_mail_host"
    (by decide) (by decide)
  cases hp : (GetValue c ConfigProcessors "default" "primary_mail_host").isNone with
  | false =>
    have e : processorDefaults hostname c = debuggerDefault c := by
      simp [processorDefaults, hp]
    rw [e] at hfr ⊢
    have hp' : (GetValue (debuggerDefault c).1 ConfigProcessors "default"
        "primary_mail_host").isNone = false := by rw [hfr, hp]
    simp only [processorDefaults, hp', Bool.false_eq_true, if_false]
    exact debuggerDefault_idem c
  | true =>
    cases hostname with
    | error err => simp [processorDefaults, hp]
    | ok h =>
      have e : processorDefaults (Except.ok h) c =
          debuggerDefault (SetValue c ConfigProcessors "Header" "primary_mail_host"
            (Value.str h)) := by
        simp [processorDefaults, hp]
      rw [e] at hfr ⊢
      have hp' : (GetValue (debuggerDefault (SetValue c ConfigProcessors "Header"
          "primary_mail_host" (Value.str h))).1 ConfigProcessors "default"
          "primary_mail_host").isNone = true := by rw [hfr, hp]
      have hv : GetValue (debuggerDefault (SetValue c ConfigProcessors "Header"
          "primary_mail_host" (Value.str h))).1 ConfigProcessors "Header"
          "primary_mail_host" = some (Value.str h) := by
        rw [debuggerDefault_frame _ _ _ _ (by decide)]
        exact (SetValue_GetValue _ _ _ _ _).1
      simp only [processorDefaults, hp', if_true]
      rw [SetValue_of_GetValue hv]
      exact debuggerDefault_idem _

/-- Claim C10. Idempotent default population: for every store and every fixed outcome of
the hostname lookup, a second call of `ConfigureDefaults` leaves the store of the
first call as it is and returns the same error outcome. -/
theorem ConfigureDefaults_idempotent (hostname : HostnameResult) (c : BackendConfig) :
    ConfigureDefaults hostname (ConfigureDefaults hostname c).1 =
      ConfigureDefaults hostname c := by
  rw [ConfigureDefaults_eq hostname c, ConfigureDefaults_eq]
  obtain ⟨h1, h2⟩ := gatewayDefaults_present c
  have g1 := processorDefaults_frame hostname (gatewayDefaults c) ConfigGateways "default"
    "save_workers_size" (by decide) (by decide)
  have g2 := processorDefaults_frame hostname (gatewayDefaults c) ConfigGateways "default"
    "save_process" (by decide) (by decide)
  rw [gatewayDefaults_of_present (by rw [g1, h1]) (by rw [g2, h2])]
  exact processorDefaults_idem hostname (gatewayDefaults c)

/-! ## The chain parser -/

theorem foldl_set_range {α : Type} (f : Nat → α) (k : Nat) (l : List α) :
    ((List.range k).foldl (fun (l : List α) i => l.set i (f i)) l).length = l.length ∧
    ∀ i, ((List.range k).foldl (fun (l : List α) i => l.set i (f i)) l)[i]? =
      if i < k ∧ i < l.length then some (f i) else l[i]? := by
  induction k with
  | zero => simp
  | succ k ih =>
    rw [List.range_succ, List.foldl_append]
    obtain ⟨h1, h2⟩ := ih
    refine ⟨by simp [h1], fun i => ?_⟩
    simp only [List.foldl_cons, List.foldl_nil, List.getElem?_set, h1, h2]
    by_cases hik : k = i
    · subst hik
      by_cases hl : k < l.length <;> simp [hl]
      omega
    · simp only [hik, if_false]
      by_cases hl : i < l.length
      · have : (i < k + 1) ↔ i < k := by omega
        simp [hl, this]
      · simp [hl]

/-- Claim C2. Reversal law: when the trimmed, lowercased chain string is not empty and
splits on `|` into the tokens `items`, `NewStackConfig` returns exactly
`items.length` links, and link `i` has the name `items[items.length - 1 - i]` and an
empty alias.
The law holds for every case table of `unicode.ToLower`. -/
theorem NewStackConfig_reversal (tbl : CaseTable) (config : String)
    (h : ToLower tbl (TrimSpace config) ≠ "") :
    (NewStackConfig tbl config).list.length = (Split (ToLower tbl (TrimSpace config)) '|').length ∧
    ∀ i, i < (Split (ToLower tbl (TrimSpace config)) '|').length →
      ∃ t, (Split (ToLower tbl (TrimSpace config)) '|')[
              (Split (ToLower tbl (TrimSpace config)) '|').length - 1 - i]? = some t ∧
        (NewStackConfig tbl config).list[i]? = some { alias_ := "", name := t } := by
  simp only [NewStackConfig, h, if_false]
  generalize Split (ToLower tbl (TrimSpace config)) '|' = items
  obtain ⟨h1, h2⟩ := foldl_set_range
    (fun i => ({ alias_ := "", name := items.getD (items.length - 1 - i) "" } :
      stackConfigExpression))
    items.length (List.replicate items.length { alias_ := "", name := "" })
  refine ⟨by simpa using h1, fun i hi => ?_⟩
  have hpos : items.length - 1 - i < items.length := by omega
  refine ⟨items[items.length - 1 - i], List.getElem?_eq_getElem hpos, ?_⟩
  rw [h2 i]
  simp [hi, List.getD_eq_getElem?_getD, List.getElem?_eq_getElem hpos]

/-- The reversal law at the chain `HeadersParser|Header|Debugger`, and the links of the
chain `HÉADER|Ünï`. -/
theorem NewStackConfig_reversal_witness :
    ToLower latin1CaseTable (TrimSpace "HeadersParser|Header|Debugger") ≠ "" ∧
    ((NewStackConfig latin1CaseTable "HeadersParser|Header|Debugger").list.length =
        (Split (ToLower latin1CaseTable (TrimSpace "HeadersParser|Header|Debugger"))
          '|').length ∧
      ∀ i, i < (Split (ToLower latin1CaseTable (TrimSpace "HeadersParser|Header|Debugger"))
          '|').length →
        ∃ t, (Split (ToLower latin1CaseTable (TrimSpace "HeadersParser|Header|Debugger")) '|')[
              (Split (ToLower latin1CaseTable (TrimSpace "HeadersParser|Header|Debugger"))
                '|').length - 1 - i]?
              = some t ∧
          (NewStackConfig latin1CaseTable "HeadersParser|Header|Debugger").list[i]? =
            some { alias_ := "", name := t }) ∧
    (NewStackConfig latin1CaseTable "HeadersParser|Header|Debugger").list.map
        stackConfigExpression.name = ["debugger", "header", "headersparser"] ∧
    (NewStackConfig latin1CaseTable "HÉADER|Ünï").list.map stackConfigExpression.name =
      ["ünï", "héader"] :=
  ⟨by decide,
    NewStackConfig_reversal latin1CaseTable "HeadersParser|Header|Debugger" (by decide),
    by decide, by decide⟩

/-! ## The group diff -/

theorem foldl_append_singleton (l acc : List String) :
    l.foldl (fun (r : List String) p => r ++ [p]) acc = acc ++ l := by
  induction l generalizing acc with
  | nil => simp
  | cons a l ih => simp [ih]

theorem compareStep_diff (new : GoMap ConfigGroup) (st : CompareState) (p : String) :
    (compareStep new st p).diff = st.diff ++ (if isDiff st.old new p then [p] else []) := by
  unfold compareStep isDiff
  cases h : GoMap.index st.old p with
  | none => simp
  | some o => cases hd : DeepEqual ((GoMap.index new p).getD none) o <;> simp [hd]

theorem compareStep_added (new : GoMap ConfigGroup) (st : CompareState) (p : String) :
    (compareStep new st p).added =
      st.added ++ (if (GoMap.index st.old p).isNone then [p] else []) := by
  unfold compareStep
  cases h : GoMap.index st.old p with
  | none => simp
  | some o => cases hd : DeepEqual ((GoMap.index new p).getD none) o <;> simp [hd]

theorem compareStep_old (new : GoMap ConfigGroup) (st : CompareState) (p : String) :
    (compareStep new st p).old = GoMap.delete st.old p := by
  unfold compareStep
  cases h : GoMap.index st.old p with
  | none =>
    simp only []
    have hk : p ∉ GoMap.keys st.old := (GoMap.index_eq_none_iff _ _).1 h
    have : ∀ m : GoMap ConfigGroup, p ∉ GoMap.keys m → GoMap.delete m p = m := by
      intro m
      induction m with
      | nil => intro _; rfl
      | cons e rest ih =>
        obtain ⟨k₀, v₀⟩ := e
        intro hm
        simp only [GoMap.keys, List.map_cons, List.mem_cons, not_or] at hm
        have h0 : ¬ k₀ = p := fun h => hm.1 h.symm
        simp [GoMap.delete, h0, ih hm.2]
    exact (this _ hk).symm
  | some o => cases hd : DeepEqual ((GoMap.index new p).getD none) o <;> simp [hd]

theorem compareStep_index_ne (new : GoMap ConfigGroup) (st : CompareState) {p q : String}
    (h : p ≠ q) : GoMap.index (compareStep new st p).old q = GoMap.index st.old q := by
  rw [compareStep_old, GoMap.index_delete_ne _ h]

/-- The map `old` after the first loop of `compareConfigGroup`: its keys are the keys
that the loop did not visit. -/
theorem compareFold_old (new : GoMap ConfigGroup) (l : List String) (st : CompareState) :
    GoMap.keys (l.foldl (compareStep new) st).old =
      (GoMap.keys st.old).filter (fun k => decide (k ∉ l)) ∧
    ∀ q, q ∉ l → GoMap.index (l.foldl (compareStep new) st).old q = GoMap.index st.old q := by
  induction l generalizing st with
  | nil => simp
  | cons p l ih =>
    obtain ⟨h1, h2⟩ := ih (compareStep new st p)
    refine ⟨?_, fun q hq => ?_⟩
    · simp only [List.foldl_cons, h1, compareStep_old, GoMap.keys_delete, List.filter_filter]
      apply List.filter_congr
      intro k _
      by_cases hk : k = p <;> simp [hk]
    · simp only [List.mem_cons, not_or] at hq
      simp only [List.foldl_cons]
      rw [h2 q hq.2, compareStep_index_ne new st (fun h => hq.1 h.symm)]

/-- The slices `diff` and `added` after the first loop of `compareConfigGroup` over
distinct keys. -/
theorem compareFold_lists (new : GoMap ConfigGroup) (l : List String) (hl : l.Nodup)
    (st : CompareState) :
    (l.foldl (compareStep new) st).diff = st.diff ++ l.filter (isDiff st.old new) ∧
    (l.foldl (compareStep new) st).added =
      st.added ++ l.filter (fun p => (GoMap.index st.old p).isNone) := by
  induction l generalizing st with
  | nil => simp
  | cons p l ih =>
    obtain ⟨hp, hl'⟩ := List.nodup_cons.1 hl
    obtain ⟨h1, h2⟩ := ih hl' (compareStep new st p)
    have hidx : ∀ q ∈ l, GoMap.index (compareStep new st p).old q = GoMap.index st.old q :=
      fun q hq => compareStep_index_ne new st (fun h => hp (h ▸ hq))
    have e1 : l.filter (isDiff (compareStep new st p).old new) = l.filter (isDiff st.old new) := by
      apply List.filter_congr
      intro q hq
      simp only [isDiff, hidx q hq]
    have e2 : l.filter (fun q => (GoMap.index (compareStep new st p).old q).isNone) =
        l.filter (fun q => (GoMap.index st.old q).isNone) := by
      apply List.filter_congr
      intro q hq
      simp only [hidx q hq]
    refine ⟨?_, ?_⟩
    · simp only [List.foldl_cons, h1, e1, compareStep_diff, List.filter_cons]
      cases isDiff st.old new p <;> simp
    · simp only [List.foldl_cons, h2, e2, compareStep_added, List.filter_cons]
      cases (GoMap.index st.old p).isNone <;> simp

/-- The three slices of `compareConfigGroup` on a well-formed `new`. -/
theorem compareConfigGroup_eq (old new : GoMap ConfigGroup) (hn : GoMap.WF new) :
    (compareConfigGroup old new).diff = (GoMap.keys new).filter (isDiff old new) ∧
    (compareConfigGroup old new).added =
      (GoMap.keys new).filter (fun p => (GoMap.index old p).isNone) ∧
    (compareConfigGroup old new).removed =
      (GoMap.keys old).filter (fun k => decide (k ∉ GoMap.keys new)) := by
  obtain ⟨h1, h2⟩ := compareFold_lists new (GoMap.keys new) hn
    { diff := [], added := [], old := old }
  obtain ⟨h3, _⟩ := compareFold_old new (GoMap.keys new) { diff := [], added := [], old := old }
  refine ⟨by simpa [compareConfigGroup] using h1, by simpa [compareConfigGroup] using h2, ?_⟩
  simp only [compareConfigGroup, foldl_append_singleton, List.nil_append]
  exact h3

theorem isDiff_iff (old new : GoMap ConfigGroup) (p : String) (hp : p ∈ GoMap.keys new) :
    isDiff old new p = true ↔
      ∃ o g, GoMap.index old p = some o ∧ GoMap.index new p = some g ∧
        DeepEqual g o = false := by
  obtain ⟨g, hg⟩ := Option.isSome_iff_exists.1 ((GoMap.index_isSome_iff new p).2 hp)
  unfold isDiff
  cases ho : GoMap.index old p with
  | none => simp
  | some o => simp [hg]

/-- Claim C7. Group diff completeness: for two well-formed mappings `old` and `new`, a
name is in `diff` exactly when it is in both with groups that are not deeply equal,
in `added` exactly when it is only in `new`, in `removed` exactly when it is only in
`old`; the three slices have no duplicates and are pairwise disjoint; and together
they hold exactly the names of `old` or `new` that are not unchanged (in both, with
deeply equal groups), so every name of `old ∪ new` is in exactly one of the four
classes. -/
theorem compareConfigGroup_complete (old new : GoMap ConfigGroup)
    (ho : GoMap.WF old) (hn : GoMap.WF new) :
    (∀ n, n ∈ (compareConfigGroup old new).diff ↔
      ∃ o g, GoMap.index old n = some o ∧ GoMap.index new n = some g ∧
        DeepEqual g o = false) ∧
    (∀ n, n ∈ (compareConfigGroup old new).added ↔
      n ∈ GoMap.keys new ∧ n ∉ GoMap.keys old) ∧
    (∀ n, n ∈ (compareConfigGroup old new).removed ↔
      n ∈ GoMap.keys old ∧ n ∉ GoMap.keys new) ∧
    ((compareConfigGroup old new).diff.Nodup ∧ (compareConfigGroup old new).added.Nodup ∧
      (compareConfigGroup old new).removed.Nodup) ∧
    (List.Disjoint (compareConfigGroup old new).diff (compareConfigGroup old new).added ∧
      List.Disjoint (compareConfigGroup old new).diff (compareConfigGroup old new).removed ∧
      List.Disjoint (compareConfigGroup old new).added (compareConfigGroup old new).removed) ∧
    (∀ n, (n ∈ (compareConfigGroup old new).diff ∨ n ∈ (compareConfigGroup old new).added ∨
        n ∈ (compareConfigGroup old new).removed) ↔
      ((n ∈ GoMap.keys old ∨ n ∈ GoMap.keys new) ∧
        ¬ ∃ o g, GoMap.index old n = some o ∧ GoMap.index new n = some g ∧
          DeepEqual g o = true)) := by
  obtain ⟨e1, e2, e3⟩ := compareConfigGroup_eq old new hn
  have hd : ∀ n, n ∈ (compareConfigGroup old new).diff ↔
      ∃ o g, GoMap.index old n = some o ∧ GoMap.index new n = some g ∧
        DeepEqual g o = false := by
    intro n
    rw [e1, List.mem_filter]
    constructor
    · rintro ⟨hk, hdf⟩
      exact (isDiff_iff old new n hk).1 hdf
    · rintro ⟨o, g, h1, h2, h3⟩
      have hk : n ∈ GoMap.keys new := (GoMap.index_isSome_iff new n).1 (by rw [h2]; rfl)
      exact ⟨hk, (isDiff_iff old new n hk).2 ⟨o, g, h1, h2, h3⟩⟩
  have ha : ∀ n, n ∈ (compareConfigGroup old new).added ↔
      n ∈ GoMap.keys new ∧ n ∉ GoMap.keys old := by
    intro n
    rw [e2, List.mem_filter, Option.isNone_iff_eq_none, GoMap.index_eq_none_iff]
  have hr : ∀ n, n ∈ (compareConfigGroup old new).removed ↔
      n ∈ GoMap.keys old ∧ n ∉ GoMap.keys new := by
    intro n
    rw [e3, List.mem_filter]
    simp
  refine ⟨hd, ha, hr, ⟨?_, ?_, ?_⟩, ⟨?_, ?_, ?_⟩, ?_⟩
  · rw [e1]; exact hn.filter _
  · rw [e2]; exact hn.filter _
  · rw [e3]; exact ho.filter _
  · intro n h1 h2
    obtain ⟨o, g, h3, _, _⟩ := (hd n).1 h1
    exact ((ha n).1 h2).2 ((GoMap.index_isSome_iff old n).1 (by rw [h3]; rfl))
  · intro n h1 h2
    obtain ⟨o, g, _, h3, _⟩ := (hd n).1 h1
    exact ((hr n).1 h2).2 ((GoMap.index_isSome_iff new n).1 (by rw [h3]; rfl))
  · intro n h1 h2
    exact ((hr n).1 h2).2 ((ha n).1 h1).1
  · intro n
    rw [hd, ha, hr]
    constructor
    · rintro (⟨o, g, h1, h2, h3⟩ | ⟨h1, h2⟩ | ⟨h1, h2⟩)
      · refine ⟨Or.inl ((GoMap.index_isSome_iff old n).1 (by rw [h1]; rfl)), ?_⟩
        rintro ⟨o', g', h1', h2', h3'⟩
        rw [h1] at h1'
        rw [h2] at h2'
        cases h1'
        cases h2'
        rw [h3] at h3'
        cases h3'
      · refine ⟨Or.inr h1, ?_⟩
        rintro ⟨o', g', h1', _, _⟩
        exact h2 ((GoMap.index_isSome_iff old n).1 (by rw [h1']; rfl))
      · refine ⟨Or.inl h1, ?_⟩
        rintro ⟨o', g', _, h2', _⟩
        exact h2 ((GoMap.index_isSome_iff new n).1 (by rw [h2']; rfl))
    · rintro ⟨hmem, hne⟩
      by_cases hko : n ∈ GoMap.keys old
      · by_cases hkn : n ∈ GoMap.keys new
        · obtain ⟨o, h1⟩ := Option.isSome_iff_exists.1 ((GoMap.index_isSome_iff old n).2 hko)
          obtain ⟨g, h2⟩ := Option.isSome_iff_exists.1 ((GoMap.index_isSome_iff new n).2 hkn)
          left
          refine ⟨o, g, h1, h2, ?_⟩
          cases h3 : DeepEqual g o
          · rfl
          · exact absurd ⟨o, g, h1, h2, h3⟩ hne
        · exact Or.inr (Or.inr ⟨hko, hkn⟩)
      · rcases hmem with h | h
        · exact absurd h hko
        · exact Or.inr (Or.inl ⟨h, hko⟩)

/-- The group diff of the example mappings: `edited` differs, `fresh` is added,
`dropped` is removed and `kept` is in none of the slices. -/
theorem compareConfigGroup_complete_witness :
    GoMap.WF diffExampleOld ∧ GoMap.WF diffExampleNew ∧
    (∀ n, n ∈ (compareConfigGroup diffExampleOld diffExampleNew).diff ↔
      ∃ o g, GoMap.index diffExampleOld n = some o ∧ GoMap.index diffExampleNew n = some g ∧
        DeepEqual g o = false) ∧
    (compareConfigGroup diffExampleOld diffExampleNew).diff = ["edited"] ∧
    (compareConfigGroup diffExampleOld diffExampleNew).added = ["fresh"] ∧
    (compareConfigGroup diffExampleOld diffExampleNew).removed = ["dropped"] :=
  ⟨by decide, by decide,
    (compareConfigGroup_complete diffExampleOld diffExampleNew (by decide) (by decide)).1,
    by decide, by decide, by decide⟩

/-- The first loop of `compareConfigGroup` only appends to `diff` and `added`. -/
theorem compareFold_mono (new : GoMap ConfigGroup) (l : List String) (st : CompareState)
    (p : String) :
    (p ∈ st.diff → p ∈ (l.foldl (compareStep new) st).diff) ∧
    (p ∈ st.added → p ∈ (l.foldl (compareStep new) st).added) := by
  induction l generalizing st with
  | nil => simp
  | cons q l ih =>
    obtain ⟨h1, h2⟩ := ih (compareStep new st q)
    refine ⟨fun h => h1 ?_, fun h => h2 ?_⟩
    · rw [compareStep_diff]; exact List.mem_append_left _ h
    · rw [compareStep_added]; exact List.mem_append_left _ h

/-- A visited name that the loop finds changed or missing in `old` is recorded, also
when the keys are not known to be distinct. -/
theorem compareFold_mem (new : GoMap ConfigGroup) (l : List String) (st : CompareState)
    (p : String) (hp : p ∈ l) :
    (isDiff st.old new p = true → p ∈ (l.foldl (compareStep new) st).diff) ∧
    (GoMap.index st.old p = none → p ∈ (l.foldl (compareStep new) st).added) := by
  induction l generalizing st with
  | nil => simp at hp
  | cons q l ih =>
    by_cases hq : q = p
    · subst hq
      obtain ⟨m1, m2⟩ := compareFold_mono new l (compareStep new st q) q
      refine ⟨fun h => m1 ?_, fun h => m2 ?_⟩
      · rw [compareStep_diff]; simp [h]
      · rw [compareStep_added]; simp [h]
    · have hp' : p ∈ l := by
        rcases List.mem_cons.1 hp with h | h
        · exact absurd h.symm hq
        · exact h
      obtain ⟨h1, h2⟩ := ih (compareStep new st q) hp'
      have hidx := compareStep_index_ne new st hq
      refine ⟨fun h => h1 ?_, fun h => h2 ?_⟩
      · simpa only [isDiff, hidx] using h
      · rw [hidx]; exact h

/-- A name whose group differs, or that is in only one of the two mappings, is in one
of the three slices of `compareConfigGroup`. -/
theorem compareConfigGroup_mem (old new : GoMap ConfigGroup) (p : String)
    (h : (∃ o g, GoMap.index old p = some o ∧ GoMap.index new p = some g ∧
            DeepEqual g o = false) ∨
         (p ∈ GoMap.keys old ∧ p ∉ GoMap.keys new) ∨
         (p ∈ GoMap.keys new ∧ p ∉ GoMap.keys old)) :
    p ∈ (compareConfigGroup old new).diff ∨ p ∈ (compareConfigGroup old new).removed ∨
      p ∈ (compareConfigGroup old new).added := by
  rcases h with ⟨o, g, h1, h2, h3⟩ | ⟨h1, h2⟩ | ⟨h1, h2⟩
  · left
    have hk : p ∈ GoMap.keys new := (GoMap.index_isSome_iff new p).1 (by rw [h2]; rfl)
    exact (compareFold_mem new (GoMap.keys new) { diff := [], added := [], old := old } p hk).1
      ((isDiff_iff old new p hk).2 ⟨o, g, h1, h2, h3⟩)
  · right; left
    obtain ⟨h3, _⟩ := compareFold_old new (GoMap.keys new) { diff := [], added := [], old := old }
    simp only [compareConfigGroup, foldl_append_singleton, List.nil_append]
    rw [h3, List.mem_filter]
    exact ⟨h1, by simpa using h2⟩
  · right; right
    exact (compareFold_mem new (GoMap.keys new) { diff := [], added := [], old := old } p h1).2
      ((GoMap.index_eq_none_iff old p).2 h2)

theorem has_foldl_assign (f : String → String) (l : List String) (acc : GoMap Bool)
    (k : String) :
    GoMap.has (l.foldl (fun (s : GoMap Bool) p => GoMap.assign s (f p) true) acc) k = true ↔
      GoMap.has acc k = true ∨ ∃ p ∈ l, f p = k := by
  induction l generalizing acc with
  | nil => simp
  | cons q l ih =>
    simp only [List.foldl_cons, ih, GoMap.has_assign, List.mem_cons, exists_eq_or_imp]
    tauto

theorem has_foldl_assign_self (l : List String) (acc : GoMap Bool) (k : String) :
    GoMap.has (l.foldl (fun (s : GoMap Bool) p => GoMap.assign s p true) acc) k = true ↔
      GoMap.has acc k = true ∨ k ∈ l := by
  simpa using has_foldl_assign id l acc k

/-- The changed-names set holds the lowercased names of the three slices. -/
theorem changedConfigGroups_has (old new : GoMap ConfigGroup) (k : String) :
    GoMap.has (changedConfigGroups tbl old new).1 k = true ↔
      ∃ p, (p ∈ (compareConfigGroup old new).diff ∨ p ∈ (compareConfigGroup old new).removed ∨
        p ∈ (compareConfigGroup old new).added) ∧ ToLower tbl p = k := by
  simp only [changedConfigGroups, has_foldl_assign (ToLower tbl), List.nil_append, List.mem_append]
  constructor
  · rintro (h | ⟨p, hp, rfl⟩)
    · simp [GoMap.has, GoMap.index] at h
    · exact ⟨p, by tauto, rfl⟩
  · rintro ⟨p, hp, rfl⟩
    exact Or.inr ⟨p, by tauto, rfl⟩

/-! ## The gateway walk of `Changes` -/

theorem NewStackConfig_list_eq (config : String) (h : ToLower tbl (TrimSpace config) ≠ "") :
    (NewStackConfig tbl config).list =
      (Split (ToLower tbl (TrimSpace config)) '|').reverse.map
        (fun t => ({ alias_ := "", name := t } : stackConfigExpression)) := by
  simp only [NewStackConfig, h, if_false]
  generalize Split (ToLower tbl (TrimSpace config)) '|' = items
  obtain ⟨h1, h2⟩ := foldl_set_range
    (fun i => ({ alias_ := "", name := items.getD (items.length - 1 - i) "" } :
      stackConfigExpression))
    items.length (List.replicate items.length { alias_ := "", name := "" })
  apply List.ext_getElem?
  intro i
  rw [h2 i]
  by_cases hi : i < items.length
  · have hpos : items.length - 1 - i < items.length := by omega
    simp [hi, List.getElem?_reverse hi, List.getD_eq_getElem?_getD,
      List.getElem?_eq_getElem hpos]
  · have hi' : items.length ≤ i := by omega
    simp only [hi, false_and, if_false]
    rw [List.getElem?_eq_none (by simpa using hi'), List.getElem?_eq_none (by simpa using hi')]

theorem markLinks_has (names : GoMap Bool) (key : String) (list : List stackConfigExpression)
    (changed : GoMap Bool) (k : String) :
    GoMap.has (markLinks names key list changed) k = true ↔
      GoMap.has changed k = true ∨
        (key = k ∧ list.any (fun v => GoMap.has names v.name) = true) := by
  unfold markLinks
  induction list generalizing changed with
  | nil => simp
  | cons v list ih =>
    simp only [List.foldl_cons, ih, List.any_cons, Bool.or_eq_true]
    by_cases hv : GoMap.has names v.name = true
    · simp only [hv, if_true, GoMap.has_assign]
      tauto
    · simp only [hv, if_false]
      tauto

theorem gatewayStep_changed (E : Extractor) (c oldConfig : BackendConfig)
    (cp csp : GoMap Bool) (st : GatewayState) (key k : String) :
    GoMap.has (gatewayStep tbl E c oldConfig cp csp st key).changed k = true ↔
      GoMap.has st.changed k = true ∨ (key = k ∧ gatewayChanged tbl E c oldConfig cp csp key = true) := by
  unfold gatewayStep gatewayChanged chainHit
  simp only []
  cases ho : GoMap.index (groupsOf oldConfig (configNameSpace.String ConfigGateways)) key with
  | none =>
    simp only [ho, markLinks_has, Bool.or_false, Bool.or_eq_true]
    generalize (NewStackConfig tbl (E ConfigGateways key c).SaveProcess).list.any
      (fun v => GoMap.has cp v.name) = a
    generalize (NewStackConfig tbl (E ConfigGateways key c).StreamSaveProcess).list.any
      (fun v => GoMap.has csp v.name) = b
    tauto
  | some o =>
    cases hd : DeepEqual ((GoMap.index (groupsOf c (configNameSpace.String ConfigGateways))
        key).getD none) o
    · simp only [ho, hd, Bool.not_false, if_true, GoMap.has_assign, markLinks_has,
        Bool.or_true]
      tauto
    · simp only [ho, hd, Bool.not_true, Bool.false_eq_true, if_false, markLinks_has,
        Bool.or_false, Bool.or_eq_true]
      generalize (NewStackConfig tbl (E ConfigGateways key c).SaveProcess).list.any
        (fun v => GoMap.has cp v.name) = a
      generalize (NewStackConfig tbl (E ConfigGateways key c).StreamSaveProcess).list.any
        (fun v => GoMap.has csp v.name) = b
      tauto

theorem gatewayStep_added (E : Extractor) (c oldConfig : BackendConfig)
    (cp csp : GoMap Bool) (st : GatewayState) (key k : String) :
    GoMap.has (gatewayStep tbl E c oldConfig cp csp st key).added k = true ↔
      GoMap.has st.added k = true ∨ (key = k ∧
        GoMap.index (groupsOf oldConfig (configNameSpace.String ConfigGateways)) key = none) := by
  unfold gatewayStep
  simp only []
  cases ho : GoMap.index (groupsOf oldConfig (configNameSpace.String ConfigGateways)) key with
  | none => simp [ho, GoMap.has_assign, or_comm]
  | some o =>
    cases hd : DeepEqual ((GoMap.index (groupsOf c (configNameSpace.String ConfigGateways))
        key).getD none) o <;> simp [ho, hd]

theorem gatewayStep_oldList (E : Extractor) (c oldConfig : BackendConfig)
    (cp csp : GoMap Bool) (st : GatewayState) (key k : String) :
    GoMap.has (gatewayStep tbl E c oldConfig cp csp st key).oldList k = true ↔
      GoMap.has st.oldList k = true ∧ ¬ (key = k ∧
        key ∈ GoMap.keys (groupsOf oldConfig (configNameSpace.String ConfigGateways))) := by
  unfold gatewayStep
  simp only []
  cases ho : GoMap.index (groupsOf oldConfig (configNameSpace.String ConfigGateways)) key with
  | none =>
    have hk := (GoMap.index_eq_none_iff _ _).1 ho
    simp [ho, hk]
  | some o =>
    have hk : key ∈ GoMap.keys (groupsOf oldConfig (configNameSpace.String ConfigGateways)) :=
      (GoMap.index_isSome_iff _ _).1 (by rw [ho]; rfl)
    cases hd : DeepEqual ((GoMap.index (groupsOf c (configNameSpace.String ConfigGateways))
        key).getD none) o <;> simp [ho, hd, hk, GoMap.has_delete] <;> tauto

/-- The three sets after the gateway loop of `Changes` over the keys `l`. -/
theorem gatewayFold (E : Extractor) (c oldConfig : BackendConfig) (cp csp : GoMap Bool)
    (l : List String) (st : GatewayState) (k : String) :
    (GoMap.has (l.foldl (gatewayStep tbl E c oldConfig cp csp) st).changed k = true ↔
      GoMap.has st.changed k = true ∨
        (k ∈ l ∧ gatewayChanged tbl E c oldConfig cp csp k = true)) ∧
    (GoMap.has (l.foldl (gatewayStep tbl E c oldConfig cp csp) st).added k = true ↔
      GoMap.has st.added k = true ∨
        (k ∈ l ∧ k ∉ GoMap.keys (groupsOf oldConfig (configNameSpace.String ConfigGateways)))) ∧
    (GoMap.has (l.foldl (gatewayStep tbl E c oldConfig cp csp) st).oldList k = true ↔
      GoMap.has st.oldList k = true ∧
        ¬ (k ∈ l ∧ k ∈ GoMap.keys (groupsOf oldConfig (configNameSpace.String ConfigGateways)))) := by
  induction l generalizing st with
  | nil => simp
  | cons key l ih =>
    obtain ⟨h1, h2, h3⟩ := ih (gatewayStep tbl E c oldConfig cp csp st key)
    simp only [List.foldl_cons, h1, h2, h3, gatewayStep_changed, gatewayStep_added,
      gatewayStep_oldList, List.mem_cons, GoMap.index_eq_none_iff]
    refine ⟨?_, ?_, ?_⟩
    · constructor
      · rintro ((h | ⟨rfl, h⟩) | ⟨h, h'⟩)
        · exact Or.inl h
        · exact Or.inr ⟨Or.inl rfl, h⟩
        · exact Or.inr ⟨Or.inr h, h'⟩
      · rintro (h | ⟨rfl | h, h'⟩)
        · exact Or.inl (Or.inl h)
        · exact Or.inl (Or.inr ⟨rfl, h'⟩)
        · exact Or.inr ⟨h, h'⟩
    · constructor
      · rintro ((h | ⟨rfl, h⟩) | ⟨h, h'⟩)
        · exact Or.inl h
        · exact Or.inr ⟨Or.inl rfl, h⟩
        · exact Or.inr ⟨Or.inr h, h'⟩
      · rintro (h | ⟨rfl | h, h'⟩)
        · exact Or.inl (Or.inl h)
        · exact Or.inl (Or.inr ⟨rfl, h'⟩)
        · exact Or.inr ⟨h, h'⟩
    · constructor
      · rintro ⟨⟨h, h'⟩, h''⟩
        refine ⟨h, ?_⟩
        rintro ⟨rfl | hk, hk'⟩
        · exact h' ⟨rfl, hk'⟩
        · exact h'' ⟨hk, hk'⟩
      · rintro ⟨h, h'⟩
        refine ⟨⟨h, ?_⟩, ?_⟩
        · rintro ⟨rfl, hk'⟩
          exact h' ⟨Or.inl rfl, hk'⟩
        · rintro ⟨hk, hk'⟩
          exact h' ⟨Or.inr hk, hk'⟩

theorem groupsOf_leaveIn_ne (c : BackendConfig) {k k' : String} (h : k ≠ k')
    (m : GoMap ConfigGroup) : groupsOf (leaveIn c k m) k' = groupsOf c k' := by
  unfold groupsOf leaveIn
  split_ifs
  · rw [GoMap.index_assign_ne _ h]
  · rfl

theorem gatewayChanged_congr (E : Extractor) (c o1 o2 : BackendConfig) (cp csp : GoMap Bool)
    (key : String)
    (h : groupsOf o1 (configNameSpace.String ConfigGateways) =
      groupsOf o2 (configNameSpace.String ConfigGateways)) :
    gatewayChanged tbl E c o1 cp csp key = gatewayChanged tbl E c o2 cp csp key := by
  unfold gatewayChanged
  rw [h]

theorem oldAfter_gateways (old : BackendConfig) (x y : GoMap ConfigGroup) :
    groupsOf (leaveIn (leaveIn old (configNameSpace.String ConfigProcessors) x)
        (configNameSpace.String ConfigStreamProcessors) y)
      (configNameSpace.String ConfigGateways) =
    groupsOf old (configNameSpace.String ConfigGateways) := by
  rw [groupsOf_leaveIn_ne _ (by decide), groupsOf_leaveIn_ne _ (by decide)]

theorem oldAfter_streams (old : BackendConfig) (x : GoMap ConfigGroup) :
    groupsOf (leaveIn old (configNameSpace.String ConfigProcessors) x)
      (configNameSpace.String ConfigStreamProcessors) =
    groupsOf old (configNameSpace.String ConfigStreamProcessors) :=
  groupsOf_leaveIn_ne _ (by decide) _

theorem has_nil (k : String) : GoMap.has ([] : GoMap Bool) k = false := rfl

/-- A name is in `changed` exactly when it is a gateway of the new config for which
one of the three tests of the loop holds. -/
theorem Changes_changed_iff (E : Extractor) (c old : BackendConfig) (k : String) :
    GoMap.has (Changes tbl E c old).changed k = true ↔
      k ∈ GoMap.keys (groupsOf c (configNameSpace.String ConfigGateways)) ∧
        gatewayChanged tbl E c old (processorsChanged tbl c old) (streamProcessorsChanged tbl c old) k
          = true := by
  unfold Changes processorsChanged streamProcessorsChanged
  simp only []
  rw [(gatewayFold E c _ _ _ _ _ k).1, oldAfter_streams]
  rw [gatewayChanged_congr E c _ old _ _ k (oldAfter_gateways old _ _)]
  simp [has_nil]

/-- A name is in `added` exactly when it is a gateway of the new config and not of the
old one. -/
theorem Changes_added_iff (E : Extractor) (c old : BackendConfig) (k : String) :
    GoMap.has (Changes tbl E c old).added k = true ↔
      k ∈ GoMap.keys (groupsOf c (configNameSpace.String ConfigGateways)) ∧
        k ∉ GoMap.keys (groupsOf old (configNameSpace.String ConfigGateways)) := by
  unfold Changes
  simp only []
  rw [(gatewayFold E c _ _ _ _ _ k).2.1, oldAfter_gateways]
  simp [has_nil]

/-- A name is in `removed` exactly when it is a gateway of the old config and not of
the new one. -/
theorem Changes_removed_iff (E : Extractor) (c old : BackendConfig) (k : String) :
    GoMap.has (Changes tbl E c old).removed k = true ↔
      k ∈ GoMap.keys (groupsOf old (configNameSpace.String ConfigGateways)) ∧
        k ∉ GoMap.keys (groupsOf c (configNameSpace.String ConfigGateways)) := by
  unfold Changes
  simp only []
  rw [has_foldl_assign_self, ← GoMap.has_iff, (gatewayFold E c _ _ _ _ _ k).2.2,
    has_foldl_assign_self, oldAfter_gateways]
  simp only [has_nil, Bool.false_eq_true, false_or]
  tauto

theorem chainHit_iff (names : GoMap Bool) (chain : String) :
    chainHit tbl names chain = true ↔
      ∃ v ∈ (NewStackConfig tbl chain).list, GoMap.has names v.name = true := by
  simp [chainHit, List.any_eq_true]

theorem gatewayChanged_of_equal (E : Extractor) (c old : BackendConfig) (cp csp : GoMap Bool)
    (G : String) (gNew gOld : ConfigGroup)
    (hNew : GoMap.index (groupsOf c (configNameSpace.String ConfigGateways)) G = some gNew)
    (hOld : GoMap.index (groupsOf old (configNameSpace.String ConfigGateways)) G = some gOld)
    (hEq : DeepEqual gNew gOld = true) :
    gatewayChanged tbl E c old cp csp G =
      (chainHit tbl cp (E ConfigGateways G c).SaveProcess ||
        chainHit tbl csp (E ConfigGateways G c).StreamSaveProcess) := by
  simp [gatewayChanged, hNew, hOld, hEq]

theorem gatewayChanged_of_absent (E : Extractor) (c old : BackendConfig) (cp csp : GoMap Bool)
    (G : String)
    (hOld : G ∉ GoMap.keys (groupsOf old (configNameSpace.String ConfigGateways))) :
    gatewayChanged tbl E c old cp csp G =
      (chainHit tbl cp (E ConfigGateways G c).SaveProcess ||
        chainHit tbl csp (E ConfigGateways G c).StreamSaveProcess) := by
  simp [gatewayChanged, (GoMap.index_eq_none_iff _ _).2 hOld]

theorem mem_keys_of_index {V : Type} {m : GoMap V} {k : String} {v : V}
    (h : GoMap.index m k = some v) : k ∈ GoMap.keys m :=
  (GoMap.index_isSome_iff m k).1 (by rw [h]; rfl)

/-! ## The change sets of `Changes` -/

theorem NewStackConfig_list_tokens (chain : String) :
    (NewStackConfig tbl chain).list =
      (chainTokens tbl chain).reverse.map
        (fun t => ({ alias_ := "", name := t } : stackConfigExpression)) := by
  by_cases h : ToLower tbl (TrimSpace chain) = ""
  · simp [NewStackConfig, chainTokens, h]
  · rw [NewStackConfig_list_eq chain h]
    simp [chainTokens, h]

/-- Claim C1. Transitive propagation: let `G` be a gateway of both configs with deeply
equal groups.  If a pipe-separated token `t` of its extracted `SaveProcess`, trimmed as
a whole and lowercased, is the lowercased name of a processor `p` whose group differs
between old and new or that is in only one of them, then `G` is in `changed` and in
neither `added` nor `removed`.  Both sides are lowercased, so the match does not
depend on case.
This holds for every extractor and every case table. -/
theorem Changes_transitive (tbl : CaseTable) (E : Extractor) (new old : BackendConfig)
    (G t p : String) (gNew gOld : ConfigGroup)
    (hNew : GoMap.index (groupsOf new (configNameSpace.String ConfigGateways)) G = some gNew)
    (hOld : GoMap.index (groupsOf old (configNameSpace.String ConfigGateways)) G = some gOld)
    (hEq : DeepEqual gNew gOld = true)
    (ht : t ∈ chainTokens tbl (E ConfigGateways G new).SaveProcess)
    (htp : t = ToLower tbl p)
    (hp : (∃ o g, GoMap.index (groupsOf old (configNameSpace.String ConfigProcessors)) p = some o ∧
              GoMap.index (groupsOf new (configNameSpace.String ConfigProcessors)) p = some g ∧
              DeepEqual g o = false) ∨
          (p ∈ GoMap.keys (groupsOf old (configNameSpace.String ConfigProcessors)) ∧
            p ∉ GoMap.keys (groupsOf new (configNameSpace.String ConfigProcessors))) ∨
          (p ∈ GoMap.keys (groupsOf new (configNameSpace.String ConfigProcessors)) ∧
            p ∉ GoMap.keys (groupsOf old (configNameSpace.String ConfigProcessors)))) :
    GoMap.has (Changes tbl E new old).changed G = true ∧
    GoMap.has (Changes tbl E new old).added G = false ∧
    GoMap.has (Changes tbl E new old).removed G = false := by
  have hkn := mem_keys_of_index hNew
  have hko := mem_keys_of_index hOld
  refine ⟨?_, ?_, ?_⟩
  · rw [Changes_changed_iff, gatewayChanged_of_equal E new old _ _ G gNew gOld hNew hOld hEq]
    refine ⟨hkn, ?_⟩
    rw [Bool.or_eq_true]
    left
    rw [chainHit_iff]
    refine ⟨{ alias_ := "", name := t }, ?_, ?_⟩
    · rw [NewStackConfig_list_tokens]
      exact List.mem_map.2 ⟨t, List.mem_reverse.2 ht, rfl⟩
    · show GoMap.has (processorsChanged tbl new old) t = true
      unfold processorsChanged
      rw [changedConfigGroups_has]
      exact ⟨p, compareConfigGroup_mem _ _ p hp, htp.symm⟩
  · rw [← Bool.not_eq_true, Changes_added_iff]
    exact fun h => h.2 hko
  · rw [← Bool.not_eq_true, Changes_removed_iff]
    exact fun h => h.2 hkn

/-- The end-to-end scenario: the chain token `header` of gateway `default` matches the
changed processor `Header`, and the three sets are `{default}`, `{}`, `{}`; likewise
the chain `Édit` of gateway `g` matches the changed processor `édit`. -/
theorem Changes_transitive_witness :
    ("header" ∈ chainTokens latin1CaseTable
        (extractFromGroup ConfigGateways "default" scenarioNew).SaveProcess ∧
      "header" = ToLower latin1CaseTable "Header") ∧
    (GoMap.has (Changes latin1CaseTable extractFromGroup scenarioNew scenarioOld).changed
        "default" = true ∧
      GoMap.has (Changes latin1CaseTable extractFromGroup scenarioNew scenarioOld).added
        "default" = false ∧
      GoMap.has (Changes latin1CaseTable extractFromGroup scenarioNew scenarioOld).removed
        "default" = false) ∧
    ((Changes latin1CaseTable extractFromGroup scenarioNew scenarioOld).changed =
        [("default", true)] ∧
      (Changes latin1CaseTable extractFromGroup scenarioNew scenarioOld).added = [] ∧
      (Changes latin1CaseTable extractFromGroup scenarioNew scenarioOld).removed = []) ∧
    (chainTokens latin1CaseTable (extractFromGroup ConfigGateways "g" accentNew).SaveProcess =
        ["édit"] ∧
      (Changes latin1CaseTable extractFromGroup accentNew accentOld).changed = [("g", true)]) :=
  ⟨by decide,
    Changes_transitive latin1CaseTable extractFromGroup scenarioNew scenarioOld "default"
      "header" "Header"
      (some [("save_process", Value.str "HeadersParser|Header")])
      (some [("save_process", Value.str "HeadersParser|Header")])
      (by decide) (by decide) (by decide) (by decide) (by decide)
      (Or.inl ⟨some [("primary_mail_host", Value.str "a")],
        some [("primary_mail_host", Value.str "b")], by decide, by decide, by decide⟩),
    by decide, by decide⟩

/-- Claim C3, as amended. A gateway of the new config that is not in the old one is in
`added` and not in `removed`; it is in `changed` exactly when a link of its
`SaveProcess` chain is in the processors changed-names set or a link of its
`StreamSaveProcess` chain is in the stream-processors changed-names set.
This holds for every extractor and every case table. -/
theorem Changes_only_in_new (tbl : CaseTable) (E : Extractor) (new old : BackendConfig) (G : String)
    (hNew : G ∈ GoMap.keys (groupsOf new (configNameSpace.String ConfigGateways)))
    (hOld : G ∉ GoMap.keys (groupsOf old (configNameSpace.String ConfigGateways))) :
    GoMap.has (Changes tbl E new old).added G = true ∧
    GoMap.has (Changes tbl E new old).removed G = false ∧
    (GoMap.has (Changes tbl E new old).changed G = true ↔
      ((∃ v ∈ (NewStackConfig tbl (E ConfigGateways G new).SaveProcess).list,
          GoMap.has (processorsChanged tbl new old) v.name = true) ∨
       (∃ v ∈ (NewStackConfig tbl (E ConfigGateways G new).StreamSaveProcess).list,
          GoMap.has (streamProcessorsChanged tbl new old) v.name = true))) := by
  refine ⟨(Changes_added_iff E new old G).2 ⟨hNew, hOld⟩, ?_, ?_⟩
  · rw [← Bool.not_eq_true, Changes_removed_iff]
    exact fun h => hOld h.1
  · rw [Changes_changed_iff, gatewayChanged_of_absent E new old _ _ G hOld, Bool.or_eq_true,
      chainHit_iff, chainHit_iff]
    exact ⟨fun h => h.2, fun h => ⟨hNew, h⟩⟩

/-- A new gateway whose chain names no changed processor is in `added` only. -/
theorem Changes_only_in_new_witness :
    "fresh" ∈ GoMap.keys (groupsOf freshGatewayNew (configNameSpace.String ConfigGateways)) ∧
    "fresh" ∉ GoMap.keys (groupsOf scenarioOld (configNameSpace.String ConfigGateways)) ∧
    GoMap.has (Changes latin1CaseTable extractFromGroup freshGatewayNew scenarioOld).added "fresh" = true ∧
    GoMap.has (Changes latin1CaseTable extractFromGroup freshGatewayNew scenarioOld).removed "fresh" = false ∧
    GoMap.has (Changes latin1CaseTable extractFromGroup freshGatewayNew scenarioOld).changed "fresh" = false :=
  ⟨by decide, by decide,
    (Changes_only_in_new latin1CaseTable extractFromGroup freshGatewayNew scenarioOld "fresh"
      (by decide) (by decide)).1,
    (Changes_only_in_new latin1CaseTable extractFromGroup freshGatewayNew scenarioOld "fresh"
      (by decide) (by decide)).2.1,
    by decide⟩

/-- Claim C3 as stated fails. Gateway `default` is only in the new config, its chain
names the processor `Header`, whose settings changed: `default` is in `added` and in
`changed`. -/
theorem Changes_added_and_changed :
    "default" ∈ GoMap.keys (groupsOf addedGatewayNew (configNameSpace.String ConfigGateways)) ∧
    "default" ∉ GoMap.keys (groupsOf addedGatewayOld (configNameSpace.String ConfigGateways)) ∧
    GoMap.has (Changes latin1CaseTable extractFromGroup addedGatewayNew addedGatewayOld).added "default" = true ∧
    GoMap.has (Changes latin1CaseTable extractFromGroup addedGatewayNew addedGatewayOld).changed "default"
      = true := by
  decide

/-- Claim C4. A gateway of the old config that is not in the new one is in `removed` and
in neither `changed` nor `added`. -/
theorem Changes_only_in_old (tbl : CaseTable) (E : Extractor) (new old : BackendConfig) (G : String)
    (hOld : G ∈ GoMap.keys (groupsOf old (configNameSpace.String ConfigGateways)))
    (hNew : G ∉ GoMap.keys (groupsOf new (configNameSpace.String ConfigGateways))) :
    GoMap.has (Changes tbl E new old).removed G = true ∧
    GoMap.has (Changes tbl E new old).changed G = false ∧
    GoMap.has (Changes tbl E new old).added G = false := by
  refine ⟨(Changes_removed_iff E new old G).2 ⟨hOld, hNew⟩, ?_, ?_⟩
  · rw [← Bool.not_eq_true, Changes_changed_iff]
    exact fun h => hNew h.1
  · rw [← Bool.not_eq_true, Changes_added_iff]
    exact fun h => hNew h.1

/-- The gateway `default` of the old config is gone from the new one, although its
chain names the changed processor `Header`. -/
theorem Changes_only_in_old_witness :
    "default" ∈ GoMap.keys (groupsOf addedGatewayNew (configNameSpace.String ConfigGateways)) ∧
    "default" ∉ GoMap.keys (groupsOf addedGatewayOld (configNameSpace.String ConfigGateways)) ∧
    GoMap.has (Changes latin1CaseTable extractFromGroup addedGatewayOld addedGatewayNew).removed "default" = true ∧
    GoMap.has (Changes latin1CaseTable extractFromGroup addedGatewayOld addedGatewayNew).changed "default" = false ∧
    GoMap.has (Changes latin1CaseTable extractFromGroup addedGatewayOld addedGatewayNew).added "default" = false :=
  ⟨by decide, by decide,
    Changes_only_in_old latin1CaseTable extractFromGroup addedGatewayOld addedGatewayNew "default"
      (by decide) (by decide)⟩

/-- Claim C5, where the code differs. `compareConfigGroup` deletes from the map it is handed,
and `Changes` hands it the caller's `oldConfig[cp]`: in the end-to-end scenario the old
snapshot holds `processors.Header.primary_mail_host = "a"` before the call and no
processor at all after it. -/
theorem Changes_deletes_from_old :
    GetValue scenarioOld ConfigProcessors "Header" "primary_mail_host" = some (Value.str "a") ∧
    GetValue (Changes latin1CaseTable extractFromGroup scenarioNew scenarioOld).oldConfig ConfigProcessors
      "Header" "primary_mail_host" = none ∧
    groupsOf scenarioOld (configNameSpace.String ConfigProcessors) =
      [("Header", some [("primary_mail_host", Value.str "a")])] ∧
    groupsOf (Changes latin1CaseTable extractFromGroup scenarioNew scenarioOld).oldConfig
      (configNameSpace.String ConfigProcessors) = [] := by
  decide

/-- Claim C6. No spurious change: a gateway `G` of both configs with deeply equal groups,
no link of whose `SaveProcess` chain is in the processors changed-names set and no
link of whose `StreamSaveProcess` chain is in the stream-processors changed-names set,
is in none of `changed`, `added`, `removed`.
This holds for every extractor and every case table. -/
theorem Changes_no_spurious (tbl : CaseTable) (E : Extractor) (new old : BackendConfig) (G : String)
    (gNew gOld : ConfigGroup)
    (hNew : GoMap.index (groupsOf new (configNameSpace.String ConfigGateways)) G = some gNew)
    (hOld : GoMap.index (groupsOf old (configNameSpace.String ConfigGateways)) G = some gOld)
    (hEq : DeepEqual gNew gOld = true)
    (h1 : ∀ v ∈ (NewStackConfig tbl (E ConfigGateways G new).SaveProcess).list,
      GoMap.has (processorsChanged tbl new old) v.name = false)
    (h2 : ∀ v ∈ (NewStackConfig tbl (E ConfigGateways G new).StreamSaveProcess).list,
      GoMap.has (streamProcessorsChanged tbl new old) v.name = false) :
    GoMap.has (Changes tbl E new old).changed G = false ∧
    GoMap.has (Changes tbl E new old).added G = false ∧
    GoMap.has (Changes tbl E new old).removed G = false := by
  have hkn := mem_keys_of_index hNew
  have hko := mem_keys_of_index hOld
  refine ⟨?_, ?_, ?_⟩
  · rw [← Bool.not_eq_true, Changes_changed_iff,
      gatewayChanged_of_equal E new old _ _ G gNew gOld hNew hOld hEq, Bool.or_eq_true,
      chainHit_iff, chainHit_iff]
    rintro ⟨_, ⟨v, hv, hh⟩ | ⟨v, hv, hh⟩⟩
    · rw [h1 v hv] at hh
      cases hh
    · rw [h2 v hv] at hh
      cases hh
  · rw [← Bool.not_eq_true, Changes_added_iff]
    exact fun h => h.2 hko
  · rw [← Bool.not_eq_true, Changes_removed_iff]
    exact fun h => h.2 hkn

/-- Gateway `default` keeps its settings, and its chain names neither of the processors
`Hasher` (added) and `Header` (unchanged) as a changed one. -/
theorem Changes_no_spurious_witness :
    (GoMap.has (processorsChanged latin1CaseTable freshGatewayNew scenarioOld) "hasher" = true ∧
      ∀ v ∈ (NewStackConfig latin1CaseTable
          (extractFromGroup ConfigGateways "default" freshGatewayNew).SaveProcess).list,
        GoMap.has (processorsChanged latin1CaseTable freshGatewayNew scenarioOld) v.name = false) ∧
    (GoMap.has (Changes latin1CaseTable extractFromGroup freshGatewayNew scenarioOld).changed "default" = false ∧
      GoMap.has (Changes latin1CaseTable extractFromGroup freshGatewayNew scenarioOld).added "default" = false ∧
      GoMap.has (Changes latin1CaseTable extractFromGroup freshGatewayNew scenarioOld).removed "default" = false) :=
  ⟨by decide,
    Changes_no_spurious latin1CaseTable extractFromGroup freshGatewayNew scenarioOld "default"
      (some [("save_process", Value.str "HeadersParser|Header")])
      (some [("save_process", Value.str "HeadersParser|Header")])
      (by decide) (by decide) (by decide) (by decide) (by decide)⟩

/-! ## Default population -/

/-- Claim C11, where the code differs. The user's store holds
`processors.Header.primary_mail_host = "mail.example.com"` and
`processors.Debugger.log_received_mails = false`; the probes look under the component
`default`, find nothing, and the call replaces both values by the defaults. -/
theorem ConfigureDefaults_overwrites :
    GetValue userHostStore ConfigProcessors "Header" "primary_mail_host" =
      some (Value.str "mail.example.com") ∧
    GetValue userHostStore ConfigProcessors "Debugger" "log_received_mails" =
      some (Value.bool false) ∧
    (ConfigureDefaults (Except.ok "localhost") userHostStore).2 = none ∧
    GetValue (ConfigureDefaults (Except.ok "localhost") userHostStore).1 ConfigProcessors
      "Header" "primary_mail_host" = some (Value.str "localhost") ∧
    GetValue (ConfigureDefaults (Except.ok "localhost") userHostStore).1 ConfigProcessors
      "Debugger" "log_received_mails" = some (Value.bool true) := by
  decide

theorem index_SetValue_ne (c : BackendConfig) (ns : configNameSpace) (name key : String)
    (value : Value) {k : String} (h : configNameSpace.String ns ≠ k) :
    GoMap.index (SetValue c ns name key value) k = GoMap.index c k := by
  unfold SetValue
  simp only []
  rw [GoMap.index_assign_ne _ h]
  split_ifs
  · rw [GoMap.index_assign_ne _ h]
  · rfl

theorem gatewayDefaults_frame (c : BackendConfig) (ns : configNameSpace) (name key : String)
    (h1 : (configNameSpace.String ConfigGateways, "default", "save_workers_size") ≠
      (configNameSpace.String ns, name, key))
    (h2 : (configNameSpace.String ConfigGateways, "default", "save_process") ≠
      (configNameSpace.String ns, name, key)) :
    GetValue (gatewayDefaults c) ns name key = GetValue c ns name key := by
  unfold gatewayDefaults
  simp only []
  split_ifs
  · rw [GetValue_SetValue_ne _ _ _ _ _ _ _ _ h2, GetValue_SetValue_ne _ _ _ _ _ _ _ _ h1]
  · rw [GetValue_SetValue_ne _ _ _ _ _ _ _ _ h1]
  · rw [GetValue_SetValue_ne _ _ _ _ _ _ _ _ h2]
  · rfl

theorem gatewayDefaults_index (c : BackendConfig) {k : String}
    (h : configNameSpace.String ConfigGateways ≠ k) :
    GoMap.index (gatewayDefaults c) k = GoMap.index c k := by
  unfold gatewayDefaults
  simp only []
  split_ifs
  · rw [index_SetValue_ne _ _ _ _ _ h, index_SetValue_ne _ _ _ _ _ h]
  · rw [index_SetValue_ne _ _ _ _ _ h]
  · rw [index_SetValue_ne _ _ _ _ _ h]
  · rfl

theorem gatewayDefaults_values (c : BackendConfig) :
    GetValue (gatewayDefaults c) ConfigGateways "default" "save_workers_size" =
      some ((GetValue c ConfigGateways "default" "save_workers_size").getD (Value.int 1)) ∧
    GetValue (gatewayDefaults c) ConfigGateways "default" "save_process" =
      some ((GetValue c ConfigGateways "default" "save_process").getD
        (Value.str "HeadersParser|Header|Debugger")) := by
  have hne : (configNameSpace.String ConfigGateways, "default", "save_process") ≠
      (configNameSpace.String ConfigGateways, "default", "save_workers_size") := by decide
  have hne' : (configNameSpace.String ConfigGateways, "default", "save_workers_size") ≠
      (configNameSpace.String ConfigGateways, "default", "save_process") := by decide
  unfold gatewayDefaults
  cases h1 : GetValue c ConfigGateways "default" "save_workers_size" with
  | none =>
    simp only [Option.isNone_none, if_true, Option.getD_none,
      GetValue_SetValue_ne _ _ _ _ _ _ _ _ hne']
    cases h2 : GetValue c ConfigGateways "default" "save_process" with
    | none =>
      simp only [Option.isNone_none, if_true, Option.getD_none,
        GetValue_SetValue_ne _ _ _ _ _ _ _ _ hne, (SetValue_GetValue _ _ _ _ _).1]
      exact ⟨trivial, trivial⟩
    | some w =>
      simp only [Option.isNone_some, Bool.false_eq_true, if_false, Option.getD_some,
        GetValue_SetValue_ne _ _ _ _ _ _ _ _ hne', (SetValue_GetValue _ _ _ _ _).1, h2]
      exact ⟨trivial, trivial⟩
  | some v =>
    simp only [Option.isNone_some, Bool.false_eq_true, if_false, Option.getD_some]
    cases h2 : GetValue c ConfigGateways "default" "save_process" with
    | none =>
      simp only [Option.isNone_none, if_true, Option.getD_none,
        GetValue_SetValue_ne _ _ _ _ _ _ _ _ hne, (SetValue_GetValue _ _ _ _ _).1, h1]
      exact ⟨trivial, trivial⟩
    | some w =>
      simp only [Option.isNone_some, Bool.false_eq_true, if_false, Option.getD_some, h1, h2]
      exact ⟨trivial, trivial⟩

theorem debuggerDefault_error (c : BackendConfig) : (debuggerDefault c).2 = none := by
  unfold debuggerDefault
  split_ifs <;> rfl

/-- Claim C13. `ConfigureDefaults` returns an error exactly when
`processors.default.primary_mail_host` is absent and the hostname lookup fails.  In
that case the error is the error of the lookup, the two gateway defaults are in place
(the value configured before, or else the default), and the processors namespace of
the store is what it was before the call. -/
theorem ConfigureDefaults_hostname_failure (hostname : HostnameResult) (c : BackendConfig) :
    ((ConfigureDefaults hostname c).2 ≠ none ↔
      (GetValue c ConfigProcessors "default" "primary_mail_host" = none ∧
        ∃ err, hostname = Except.error err)) ∧
    (∀ err, GetValue c ConfigProcessors "default" "primary_mail_host" = none →
      hostname = Except.error err →
      (ConfigureDefaults hostname c).2 = some err ∧
      GetValue (ConfigureDefaults hostname c).1 ConfigGateways "default" "save_workers_size" =
        some ((GetValue c ConfigGateways "default" "save_workers_size").getD (Value.int 1)) ∧
      GetValue (ConfigureDefaults hostname c).1 ConfigGateways "default" "save_process" =
        some ((GetValue c ConfigGateways "default" "save_process").getD
          (Value.str "HeadersParser|Header|Debugger")) ∧
      GoMap.index (ConfigureDefaults hostname c).1 (configNameSpace.String ConfigProcessors) =
        GoMap.index c (configNameSpace.String ConfigProcessors) ∧
      GetValue (ConfigureDefaults hostname c).1 ConfigProcessors "Header" "primary_mail_host" =
        GetValue c ConfigProcessors "Header" "primary_mail_host" ∧
      GetValue (ConfigureDefaults hostname c).1 ConfigProcessors "Debugger"
        "log_received_mails" = GetValue c ConfigProcessors "Debugger" "log_received_mails") := by
  have hp : GetValue (gatewayDefaults c) ConfigProcessors "default" "primary_mail_host" =
      GetValue c ConfigProcessors "default" "primary_mail_host" :=
    gatewayDefaults_frame c _ _ _ (by decide) (by decide)
  rw [ConfigureDefaults_eq]
  constructor
  · unfold processorDefaults
    rw [hp]
    cases h : GetValue c ConfigProcessors "default" "primary_mail_host" with
    | some v => simp [debuggerDefault_error]
    | none =>
      cases hostname with
      | error err => simp
      | ok host => simp [debuggerDefault_error]
  · intro err h herr
    subst herr
    have e : processorDefaults (Except.error err) (gatewayDefaults c) =
        (gatewayDefaults c, some err) := by
      simp [processorDefaults, hp, h]
    rw [e]
    obtain ⟨v1, v2⟩ := gatewayDefaults_values c
    exact ⟨rfl, v1, v2, gatewayDefaults_index c (by decide),
      gatewayDefaults_frame c _ _ _ (by decide) (by decide),
      gatewayDefaults_frame c _ _ _ (by decide) (by decide)⟩

/-! ## The empty chain -/

/-- Claim C14. For every string all of whose runes are white space (the empty string
among them) `NewStackConfig` returns a chain with no links, and with no error factory:
the function has no error result. -/
theorem NewStackConfig_blank (tbl : CaseTable) (config : String)
    (h : ∀ ch ∈ config.data, isSpace ch = true) :
    (NewStackConfig tbl config).list = [] ∧ (NewStackConfig tbl config).notFound = none := by
  have ht : TrimSpace config = "" := by
    unfold TrimSpace
    have : config.data.dropWhile isSpace = [] := List.dropWhile_eq_nil_iff.2 h
    rw [this]
    rfl
  have hl : ToLower tbl (TrimSpace config) = "" := by
    rw [ht]
    rfl
  simp [NewStackConfig, hl]

/-- The chain of three blanks and the empty chain have no links. -/
theorem NewStackConfig_blank_witness :
    (∀ ch ∈ ("   " : String).data, isSpace ch = true) ∧
    ((NewStackConfig latin1CaseTable "   ").list = [] ∧ (NewStackConfig latin1CaseTable "   ").notFound = none) ∧
    (NewStackConfig latin1CaseTable "").list = [] ∧ (NewStackConfig latin1CaseTable " \t\n").list = [] :=
  ⟨by decide, NewStackConfig_blank latin1CaseTable "   " (by decide), by decide, by decide⟩

/-! ## The frame of `SetValue` -/

/-- Claim C20. For enumerated namespaces `ns` and `ns'`: when the address
`(ns', name', key')` differs from `(ns, name, key)`, `GetValue` at the first returns
after `SetValue` at the second what it returned before; the three enumerated
namespaces have the three distinct store keys `processors`, `stream_processors` and
`gateways`. -/
theorem SetValue_frame (c : BackendConfig) (ns ns' : configNameSpace)
    (name key name' key' : String) (value : Value)
    (hns : ns = ConfigProcessors ∨ ns = ConfigStreamProcessors ∨ ns = ConfigGateways)
    (hns' : ns' = ConfigProcessors ∨ ns' = ConfigStreamProcessors ∨ ns' = ConfigGateways)
    (h : (ns', name', key') ≠ (ns, name, key)) :
    GetValue (SetValue c ns name key value) ns' name' key' = GetValue c ns' name' key' ∧
    (configNameSpace.String ConfigProcessors = "processors" ∧
      configNameSpace.String ConfigStreamProcessors = "stream_processors" ∧
      configNameSpace.String ConfigGateways = "gateways") ∧
    (configNameSpace.String ns = configNameSpace.String ns' → ns = ns') := by
  have hinj : configNameSpace.String ns = configNameSpace.String ns' → ns = ns' := by
    rcases hns with rfl | rfl | rfl <;> rcases hns' with rfl | rfl | rfl <;> decide
  refine ⟨?_, ⟨by decide, by decide, by decide⟩, hinj⟩
  apply GetValue_SetValue_ne
  intro heq
  simp only [Prod.mk.injEq] at heq
  obtain ⟨e1, e2, e3⟩ := heq
  exact h (by rw [hinj e1, e2, e3])

/-- Writing `processors.Header.primary_mail_host` changes neither the same key of the
same component name under `gateways` nor another key of `Header`. -/
theorem SetValue_frame_witness :
    ((ConfigGateways, "Header", "primary_mail_host") ≠
      (ConfigProcessors, "Header", "primary_mail_host")) ∧
    GetValue (SetValue scenarioOld ConfigProcessors "Header" "primary_mail_host"
        (Value.str "z")) ConfigGateways "Header" "primary_mail_host" =
      GetValue scenarioOld ConfigGateways "Header" "primary_mail_host" ∧
    GetValue (SetValue scenarioOld ConfigProcessors "Header" "primary_mail_host"
        (Value.str "z")) ConfigGateways "default" "save_process" =
      some (Value.str "HeadersParser|Header") :=
  ⟨by decide,
    (SetValue_frame scenarioOld ConfigProcessors ConfigGateways "Header" "primary_mail_host"
      "Header" "primary_mail_host" (Value.str "z") (Or.inl rfl) (Or.inr (Or.inr rfl))
      (by decide)).1,
    by decide⟩

/-! ## The default rules -/

/-- Claim C12. When the call succeeds with the hostname `h` (the lookup gives `h`, or
it is not made because `processors.default.primary_mail_host` is present),
`ConfigureDefaults` returns no error and leaves the input store with exactly the
writes of the rules whose probe key was absent from the input store:
`gateways.default.save_workers_size = 1`, `gateways.default.save_process =
"HeadersParser|Header|Debugger"`, `processors.Header.primary_mail_host = h` (probe
`processors.default.primary_mail_host`) and `processors.Debugger.log_received_mails =
true` (probe `processors.default.log_received_mails`). -/
theorem ConfigureDefaults_rules (h : String) (c : BackendConfig) :
    ConfigureDefaults (Except.ok h) c = (applyDefaultRules h c, none) ∧
    (∀ err, GetValue c ConfigProcessors "default" "primary_mail_host" ≠ none →
      ConfigureDefaults (Except.error err) c = (applyDefaultRules h c, none)) := by
  have f2 : ∀ v, GetValue (SetValue c ConfigGateways "default" "save_workers_size" v)
      ConfigGateways "default" "save_process" =
      GetValue c ConfigGateways "default" "save_process" :=
    fun v => GetValue_SetValue_ne _ _ _ _ _ _ _ _ (by decide)
  have f3 : GetValue (gatewayDefaults c) ConfigProcessors "default" "primary_mail_host" =
      GetValue c ConfigProcessors "default" "primary_mail_host" :=
    gatewayDefaults_frame c _ _ _ (by decide) (by decide)
  have f4 : GetValue (gatewayDefaults c) ConfigProcessors "default" "log_received_mails" =
      GetValue c ConfigProcessors "default" "log_received_mails" :=
    gatewayDefaults_frame c _ _ _ (by decide) (by decide)
  have f5 : ∀ x v, GetValue (SetValue x ConfigProcessors "Header" "primary_mail_host" v)
      ConfigProcessors "default" "log_received_mails" =
      GetValue x ConfigProcessors "default" "log_received_mails" :=
    fun x v => GetValue_SetValue_ne _ _ _ _ _ _ _ _ (by decide)
  have eg : gatewayDefaults c =
      (if (GetValue c ConfigGateways "default" "save_process").isNone then
        SetValue
          (if (GetValue c ConfigGateways "default" "save_workers_size").isNone then
            SetValue c ConfigGateways "default" "save_workers_size" (Value.int 1) else c)
          ConfigGateways "default" "save_process"
          (Value.str "HeadersParser|Header|Debugger")
      else
        (if (GetValue c ConfigGateways "default" "save_workers_size").isNone then
          SetValue c ConfigGateways "default" "save_workers_size" (Value.int 1) else c)) := by
    unfold gatewayDefaults
    cases h1 : (GetValue c ConfigGateways "default" "save_workers_size").isNone <;>
      simp only [h1, Bool.false_eq_true, if_false, if_true, f2]
  have ea : applyDefaultRules h c =
      (if (GetValue c ConfigProcessors "default" "log_received_mails").isNone then
        SetValue
          (if (GetValue c ConfigProcessors "default" "primary_mail_host").isNone then
            SetValue (gatewayDefaults c) ConfigProcessors "Header" "primary_mail_host"
              (Value.str h)
          else gatewayDefaults c)
          ConfigProcessors "Debugger" "log_received_mails" (Value.bool true)
      else
        (if (GetValue c ConfigProcessors "default" "primary_mail_host").isNone then
          SetValue (gatewayDefaults c) ConfigProcessors "Header" "primary_mail_host"
            (Value.str h)
        else gatewayDefaults c)) := by
    rw [eg]
    rfl
  refine ⟨?_, fun err hpres => ?_⟩
  · rw [ConfigureDefaults_eq, ea]
    unfold processorDefaults debuggerDefault
    rw [f3]
    cases h3 : (GetValue c ConfigProcessors "default" "primary_mail_host").isNone <;>
      cases h4 : (GetValue c ConfigProcessors "default" "log_received_mails").isNone <;>
      simp only [h4, Bool.false_eq_true, if_false, if_true, f4, f5]
  · have h3 : (GetValue c ConfigProcessors "default" "primary_mail_host").isNone = false := by
      cases hv : GetValue c ConfigProcessors "default" "primary_mail_host" with
      | none => exact absurd hv hpres
      | some v => rfl
    rw [ConfigureDefaults_eq, ea]
    unfold processorDefaults debuggerDefault
    rw [f3]
    cases h4 : (GetValue c ConfigProcessors "default" "log_received_mails").isNone <;>
      simp only [h3, h4, Bool.false_eq_true, if_false, if_true, f4]

/-! ## The exact change sets -/

/-- Claim C16. A name `G` is in `changed` exactly when it is a gateway of the new
config and a link of its parsed `SaveProcess` chain is in the processors changed-names
set, or a link of its parsed `StreamSaveProcess` chain is in the stream-processors
changed-names set, or it is also a gateway of the old config and its group is not
deeply equal to the old one.
This holds for every extractor and every case table. -/
theorem Changes_changed_exact (tbl : CaseTable) (E : Extractor) (new old : BackendConfig) (G : String) :
    GoMap.has (Changes tbl E new old).changed G = true ↔
      G ∈ GoMap.keys (groupsOf new (configNameSpace.String ConfigGateways)) ∧
      ((∃ v ∈ (NewStackConfig tbl (E ConfigGateways G new).SaveProcess).list,
          GoMap.has (processorsChanged tbl new old) v.name = true) ∨
       (∃ v ∈ (NewStackConfig tbl (E ConfigGateways G new).StreamSaveProcess).list,
          GoMap.has (streamProcessorsChanged tbl new old) v.name = true) ∨
       (∃ o g, GoMap.index (groupsOf old (configNameSpace.String ConfigGateways)) G = some o ∧
          GoMap.index (groupsOf new (configNameSpace.String ConfigGateways)) G = some g ∧
          DeepEqual g o = false)) := by
  rw [Changes_changed_iff]
  apply and_congr_right
  intro hk
  obtain ⟨g, hg⟩ := Option.isSome_iff_exists.1 ((GoMap.index_isSome_iff _ G).2 hk)
  unfold gatewayChanged
  rw [Bool.or_eq_true, Bool.or_eq_true, chainHit_iff, chainHit_iff, or_assoc]
  apply or_congr_right
  apply or_congr_right
  cases ho : GoMap.index (groupsOf old (configNameSpace.String ConfigGateways)) G with
  | none => simp
  | some o => simp [hg]

/-- Claim C17. The `added` set is exactly the set of gateway names of the new config
that are not in the old one, the `removed` set exactly the set of gateway names of the
old config that are not in the new one; no name is in both, and the `added` set of
`new.Changes(old)` has the members of the `removed` set of `old.Changes(new)`. -/
theorem Changes_added_removed_exact (tbl : CaseTable) (E E' : Extractor) (new old : BackendConfig) (G : String) :
    (GoMap.has (Changes tbl E new old).added G = true ↔
      G ∈ GoMap.keys (groupsOf new (configNameSpace.String ConfigGateways)) ∧
        G ∉ GoMap.keys (groupsOf old (configNameSpace.String ConfigGateways))) ∧
    (GoMap.has (Changes tbl E new old).removed G = true ↔
      G ∈ GoMap.keys (groupsOf old (configNameSpace.String ConfigGateways)) ∧
        G ∉ GoMap.keys (groupsOf new (configNameSpace.String ConfigGateways))) ∧
    ¬ (GoMap.has (Changes tbl E new old).added G = true ∧
        GoMap.has (Changes tbl E new old).removed G = true) ∧
    (GoMap.has (Changes tbl E new old).added G = true ↔
      GoMap.has (Changes tbl E' old new).removed G = true) := by
  refine ⟨Changes_added_iff E new old G, Changes_removed_iff E new old G, ?_, ?_⟩
  · rw [Changes_added_iff, Changes_removed_iff]
    exact fun h => h.1.2 h.2.1
  · rw [Changes_added_iff, Changes_removed_iff]

/-- Claim C15, as amended. Every name in `changed` and in `added` is a key of the
gateways namespace of the new config and every name in `removed` is a key of the
gateways namespace of the old one, spelled as it is stored; hence the names in the
three sets are lowercase when the stored gateway keys are. -/
theorem Changes_names_as_stored (tbl : CaseTable) (E : Extractor) (new old : BackendConfig) (G : String) :
    (GoMap.has (Changes tbl E new old).changed G = true →
      G ∈ GoMap.keys (groupsOf new (configNameSpace.String ConfigGateways))) ∧
    (GoMap.has (Changes tbl E new old).added G = true →
      G ∈ GoMap.keys (groupsOf new (configNameSpace.String ConfigGateways))) ∧
    (GoMap.has (Changes tbl E new old).removed G = true →
      G ∈ GoMap.keys (groupsOf old (configNameSpace.String ConfigGateways))) ∧
    ((∀ k ∈ GoMap.keys (groupsOf new (configNameSpace.String ConfigGateways)), ToLower tbl k = k) →
      (∀ k ∈ GoMap.keys (groupsOf old (configNameSpace.String ConfigGateways)), ToLower tbl k = k) →
      (GoMap.has (Changes tbl E new old).changed G = true ∨
        GoMap.has (Changes tbl E new old).added G = true ∨
        GoMap.has (Changes tbl E new old).removed G = true) →
      ToLower tbl G = G) := by
  have h1 := fun h => ((@Changes_changed_iff tbl E new old G).1 h).1
  have h2 := fun h => ((@Changes_added_iff tbl E new old G).1 h).1
  have h3 := fun h => ((@Changes_removed_iff tbl E new old G).1 h).1
  refine ⟨h1, h2, h3, fun hn ho h => ?_⟩
  rcases h with h | h | h
  · exact hn G (h1 h)
  · exact hn G (h2 h)
  · exact ho G (h3 h)

/-- Claim C15 as stated fails. The only gateway of the new config is stored under the
key `Default`; the `added` set holds the name `Default`, which is not lowercase. -/
theorem Changes_keeps_case :
    GoMap.has (Changes latin1CaseTable extractFromGroup mixedCaseNew []).added "Default" = true ∧
    ToLower latin1CaseTable "Default" ≠ "Default" ∧
    GoMap.has (Changes latin1CaseTable extractFromGroup mixedCaseNew []).added "default" = false ∧
    GoMap.has (Changes latin1CaseTable extractFromGroup [] mixedCaseNew).removed "Default" = true := by
  decide

/-! ## The changed-names set -/

/-- On ASCII `unicode.ToLower` is idempotent by its own code; beyond ASCII it is so when
the case table maps a rune to a rune that `unicode.ToLower` leaves as it is. -/
theorem unicodeToLower_idem
    (hl : ∀ r : Char, 0x7F < r.toNat → unicodeToLower tbl (tbl r) = tbl r) (c : Char) :
    unicodeToLower tbl (unicodeToLower tbl c) = unicodeToLower tbl c := by
  by_cases ha : c.toNat ≤ 0x7F
  · by_cases h : 65 ≤ c.toNat ∧ c.toNat ≤ 90
    · have e : unicodeToLower tbl c = Char.ofNat (c.toNat + 32) := by
        unfold unicodeToLower
        rw [if_pos ha, if_pos h]
      have key : (Char.ofNat (c.toNat + 32)).toNat ≤ 0x7F ∧
          ¬ (65 ≤ (Char.ofNat (c.toNat + 32)).toNat ∧
            (Char.ofNat (c.toNat + 32)).toNat ≤ 90) := by
        obtain ⟨h1, h2⟩ := h
        generalize c.toNat = n at h1 h2
        interval_cases n <;> decide
      rw [e]
      unfold unicodeToLower
      rw [if_pos key.1, if_neg key.2]
    · have e : unicodeToLower tbl c = c := by
        unfold unicodeToLower
        rw [if_pos ha, if_neg h]
      rw [e, e]
  · have e : unicodeToLower tbl c = tbl c := by simp [unicodeToLower, ha]
    rw [e]
    exact hl c (by omega)

theorem ToLower_idem
    (hl : ∀ r : Char, 0x7F < r.toNat → unicodeToLower tbl (tbl r) = tbl r) (s : String) :
    ToLower tbl (ToLower tbl s) = ToLower tbl s := by
  unfold ToLower
  simp only [List.map_map]
  congr 1
  apply List.map_congr_left
  intro c _
  exact unicodeToLower_idem hl c

/-- The Latin-1 rows of the case table map a rune to one that `unicode.ToLower` keeps. -/
theorem latin1CaseTable_lowered (r : Char) (hr : 0x7F < r.toNat) :
    unicodeToLower latin1CaseTable (latin1CaseTable r) = latin1CaseTable r := by
  by_cases h : 0xC0 ≤ r.toNat ∧ r.toNat ≤ 0xDE ∧ r.toNat ≠ 0xD7
  · have hc : r = Char.ofNat r.toNat := (Char.ofNat_toNat r).symm
    obtain ⟨h1, h2, h3⟩ := h
    generalize r.toNat = n at hc h1 h2 h3 hr
    subst hc
    interval_cases n <;> decide
  · have e : latin1CaseTable r = r := by simp [latin1CaseTable, h]
    have ha : ¬ r.toNat ≤ 0x7F := by omega
    rw [e]
    simp [unicodeToLower, ha, e]

/-- Claim C18. For a well-formed `new`, the set that `changedConfigGroups` returns
holds exactly the lowercased names `n` that are in both mappings with groups that are
not deeply equal, or only in `new`, or only in `old`; every member is the lowercasing
of such a name, hence equal to its own lowercasing as soon as the case table maps
every rune beyond ASCII to a rune that `unicode.ToLower` leaves as it is (on ASCII
that is proved of the code); and a name in both with deeply equal groups is in none of
the three slices the set is built from. -/
theorem changedConfigGroups_exact (tbl : CaseTable) (old new : GoMap ConfigGroup) (hn : GoMap.WF new) :
    (∀ k, GoMap.has (changedConfigGroups tbl old new).1 k = true ↔
      ∃ n, ToLower tbl n = k ∧
        ((∃ o g, GoMap.index old n = some o ∧ GoMap.index new n = some g ∧
            DeepEqual g o = false) ∨
         (n ∈ GoMap.keys new ∧ n ∉ GoMap.keys old) ∨
         (n ∈ GoMap.keys old ∧ n ∉ GoMap.keys new))) ∧
    ((∀ r : Char, 0x7F < r.toNat → unicodeToLower tbl (tbl r) = tbl r) →
      ∀ k, GoMap.has (changedConfigGroups tbl old new).1 k = true → ToLower tbl k = k) ∧
    (∀ n o g, GoMap.index old n = some o → GoMap.index new n = some g →
      DeepEqual g o = true →
      n ∉ (compareConfigGroup old new).diff ∧ n ∉ (compareConfigGroup old new).removed ∧
        n ∉ (compareConfigGroup old new).added) := by
  obtain ⟨e1, e2, e3⟩ := compareConfigGroup_eq old new hn
  have hd : ∀ n, n ∈ (compareConfigGroup old new).diff →
      ∃ o g, GoMap.index old n = some o ∧ GoMap.index new n = some g ∧
        DeepEqual g o = false := by
    intro n h
    rw [e1, List.mem_filter] at h
    exact (isDiff_iff old new n h.1).1 h.2
  have ha : ∀ n, n ∈ (compareConfigGroup old new).added →
      n ∈ GoMap.keys new ∧ n ∉ GoMap.keys old := by
    intro n h
    rw [e2, List.mem_filter, Option.isNone_iff_eq_none, GoMap.index_eq_none_iff] at h
    exact h
  have hr : ∀ n, n ∈ (compareConfigGroup old new).removed →
      n ∈ GoMap.keys old ∧ n ∉ GoMap.keys new := by
    intro n h
    rw [e3, List.mem_filter] at h
    exact ⟨h.1, by simpa using h.2⟩
  refine ⟨fun k => ?_, fun hl k hk => ?_, fun n o g ho hg he => ⟨?_, ?_, ?_⟩⟩
  · rw [changedConfigGroups_has]
    constructor
    · rintro ⟨p, hp, rfl⟩
      refine ⟨p, rfl, ?_⟩
      rcases hp with h | h | h
      · exact Or.inl (hd p h)
      · exact Or.inr (Or.inr (hr p h))
      · exact Or.inr (Or.inl (ha p h))
    · rintro ⟨n, rfl, h⟩
      refine ⟨n, compareConfigGroup_mem old new n ?_, rfl⟩
      rcases h with h | h | h
      · exact Or.inl h
      · exact Or.inr (Or.inr h)
      · exact Or.inr (Or.inl h)
  · obtain ⟨p, _, rfl⟩ := (changedConfigGroups_has old new k).1 hk
    exact ToLower_idem hl p
  · intro h
    obtain ⟨o', g', ho', hg', he'⟩ := hd n h
    rw [ho] at ho'
    rw [hg] at hg'
    cases ho'
    cases hg'
    rw [he] at he'
    cases he'
  · intro h
    exact (hr n h).2 (mem_keys_of_index hg)
  · intro h
    exact (ha n h).2 (mem_keys_of_index ho)

/-- The changed-names set of an example: `Edited`, `Fresh` and `Été` are in it in
lowercase, the unchanged `kept` is not. -/
theorem changedConfigGroups_exact_witness :
    GoMap.WF ([("Edited", some [("k", Value.int 2)]), ("Fresh", some []), ("Été", none),
      ("kept", none)] : GoMap ConfigGroup) ∧
    (∀ k, GoMap.has (changedConfigGroups latin1CaseTable
        [("Edited", some [("k", Value.int 1)]), ("kept", none)]
        [("Edited", some [("k", Value.int 2)]), ("Fresh", some []), ("Été", none),
          ("kept", none)]).1 k = true →
      ToLower latin1CaseTable k = k) ∧
    (changedConfigGroups latin1CaseTable
      [("Edited", some [("k", Value.int 1)]), ("kept", none)]
      [("Edited", some [("k", Value.int 2)]), ("Fresh", some []), ("Été", none),
        ("kept", none)]).1 =
      [("edited", true), ("fresh", true), ("été", true)] :=
  ⟨by decide,
    (changedConfigGroups_exact latin1CaseTable
      [("Edited", some [("k", Value.int 1)]), ("kept", none)]
      [("Edited", some [("k", Value.int 2)]), ("Fresh", some []), ("Été", none), ("kept", none)]
      (by decide)).2.1 latin1CaseTable_lowered,
    by decide⟩

/-! ## The self-diff -/

theorem equalGroups_iff (a b : GoMap ConfigGroup) :
    equalGroups a b = true ↔
      (∀ k ∈ GoMap.keys b, k ∈ GoMap.keys a) ∧
      (∀ k ∈ GoMap.keys a, ∃ x y, GoMap.index a k = some x ∧ GoMap.index b k = some y ∧
        DeepEqual x y = true) := by
  unfold equalGroups
  rw [Bool.and_eq_true, List.all_eq_true, List.all_eq_true]
  apply and_congr
  · apply forall_congr'
    intro k
    apply imp_congr_right
    intro _
    exact GoMap.has_iff a k
  · apply forall_congr'
    intro k
    apply imp_congr_right
    intro _
    cases ha : GoMap.index a k with
    | none => simp
    | some x =>
      cases hb : GoMap.index b k with
      | none => simp
      | some y => simp

theorem compareConfigGroup_of_equal (old new : GoMap ConfigGroup) (hn : GoMap.WF new)
    (he : equalGroups new old = true) :
    (compareConfigGroup old new).diff = [] ∧ (compareConfigGroup old new).added = [] ∧
      (compareConfigGroup old new).removed = [] := by
  obtain ⟨e1, e2, e3⟩ := compareConfigGroup_eq old new hn
  obtain ⟨h1, h2⟩ := (equalGroups_iff new old).1 he
  refine ⟨?_, ?_, ?_⟩
  · rw [e1, List.filter_eq_nil_iff]
    intro k hk
    obtain ⟨x, y, hx, hy, hxy⟩ := h2 k hk
    simp [isDiff, hx, hy, hxy]
  · rw [e2, List.filter_eq_nil_iff]
    intro k hk
    obtain ⟨x, y, hx, hy, hxy⟩ := h2 k hk
    simp [hy]
  · rw [e3, List.filter_eq_nil_iff]
    intro k hk
    simpa using h1 k hk

theorem changedConfigGroups_of_equal (old new : GoMap ConfigGroup) (hn : GoMap.WF new)
    (he : equalGroups new old = true) : (changedConfigGroups tbl old new).1 = [] := by
  obtain ⟨h1, h2, h3⟩ := compareConfigGroup_of_equal old new hn he
  simp [changedConfigGroups, h1, h2, h3]

theorem eq_nil_of_has_false (s : GoMap Bool) (h : ∀ k, GoMap.has s k = false) : s = [] := by
  cases s with
  | nil => rfl
  | cons e rest =>
    obtain ⟨k, v⟩ := e
    have := h k
    simp [GoMap.has, GoMap.index] at this

theorem chainHit_nil (chain : String) : chainHit tbl [] chain = false := by
  unfold chainHit
  rw [List.any_eq_false]
  intro v _
  simp [has_nil]

/-- Claim C19. Self-diff: when the three namespaces of `old` are structurally equal to
those of `c` (the same names with deeply equal groups, as for a value copy) and the
processors and stream-processors mappings of `c` are well-formed, `c.Changes(old)`
returns empty `changed`, `added` and `removed` sets, for every extraction of the
gateways' chains. -/
theorem Changes_self_diff (tbl : CaseTable) (E : Extractor) (c old : BackendConfig)
    (hp : equalGroups (groupsOf c (configNameSpace.String ConfigProcessors))
      (groupsOf old (configNameSpace.String ConfigProcessors)) = true)
    (hs : equalGroups (groupsOf c (configNameSpace.String ConfigStreamProcessors))
      (groupsOf old (configNameSpace.String ConfigStreamProcessors)) = true)
    (hg : equalGroups (groupsOf c (configNameSpace.String ConfigGateways))
      (groupsOf old (configNameSpace.String ConfigGateways)) = true)
    (wp : GoMap.WF (groupsOf c (configNameSpace.String ConfigProcessors)))
    (ws : GoMap.WF (groupsOf c (configNameSpace.String ConfigStreamProcessors))) :
    (Changes tbl E c old).changed = [] ∧ (Changes tbl E c old).added = [] ∧
      (Changes tbl E c old).removed = [] := by
  obtain ⟨g1, g2⟩ := (equalGroups_iff _ _).1 hg
  have ep : processorsChanged tbl c old = [] := changedConfigGroups_of_equal _ _ wp hp
  have es : streamProcessorsChanged tbl c old = [] := changedConfigGroups_of_equal _ _ ws hs
  refine ⟨eq_nil_of_has_false _ fun k => ?_, eq_nil_of_has_false _ fun k => ?_,
    eq_nil_of_has_false _ fun k => ?_⟩
  · rw [← Bool.not_eq_true, Changes_changed_iff, ep, es]
    rintro ⟨hk, hch⟩
    obtain ⟨x, y, hx, hy, hxy⟩ := g2 k hk
    simp [gatewayChanged, chainHit_nil, hx, hy, hxy] at hch
  · rw [← Bool.not_eq_true, Changes_added_iff]
    rintro ⟨hk, hko⟩
    obtain ⟨x, y, hx, hy, hxy⟩ := g2 k hk
    exact hko (mem_keys_of_index hy)
  · rw [← Bool.not_eq_true, Changes_removed_iff]
    rintro ⟨hk, hkn⟩
    exact hkn (g1 k hk)

/-- The new snapshot of the end-to-end scenario against a copy of itself with the
namespaces in another order: nothing changed. -/
theorem Changes_self_diff_witness :
    equalGroups (groupsOf scenarioNew (configNameSpace.String ConfigGateways))
      (groupsOf scenarioNewCopy (configNameSpace.String ConfigGateways)) = true ∧
    ((Changes latin1CaseTable extractFromGroup scenarioNew scenarioNewCopy).changed = [] ∧
      (Changes latin1CaseTable extractFromGroup scenarioNew scenarioNewCopy).added = [] ∧
      (Changes latin1CaseTable extractFromGroup scenarioNew scenarioNewCopy).removed = []) ∧
    ((Changes latin1CaseTable extractFromGroup scenarioNew scenarioNew).changed = [] ∧
      (Changes latin1CaseTable extractFromGroup scenarioNew scenarioNew).added = [] ∧
      (Changes latin1CaseTable extractFromGroup scenarioNew scenarioNew).removed = []) :=
  ⟨by decide,
    Changes_self_diff latin1CaseTable extractFromGroup scenarioNew scenarioNewCopy (by decide) (by decide)
      (by decide) (by decide) (by decide),
    by decide⟩

end Backends
